import Mathlib

/-!
Virtual policy resolver and concurrency gauge

A shallow embedding of `common/gray_logic.go` and `common/virtual_policy.go`.

* The package-level `activeRequests int64` cell and the shared `math/rand`
  source are the two pieces of process-wide state; they are the fields of
  `World`, and every Go function becomes a function of the world.
* A `float32` is represented by the rational number it denotes.  An untyped
  Go constant used at type `float32` (`0.5`, `0.8`, `1.2`) denotes the
  nearest `float32`, which is what `float32Const` computes.
* `int64` and `int` values are integers; `atomic.AddInt64` wraps modulo
  `2 ^ 64`.
-/

namespace Common

/-! ## float32 values as rationals -/

/-- Round to the nearest integer, ties to even (the IEEE 754 default). -/
def roundHalfEven (x : ℚ) : ℤ :=
  let f := ⌊x⌋
  let r := x - f
  if r < 1 / 2 then f
  else if 1 / 2 < r then f + 1
  else if f % 2 = 0 then f
  else f + 1

/-- The binary exponent of a positive rational: the `e` with
`2 ^ e ≤ x < 2 ^ (e + 1)`. -/
def binaryExponent (x : ℚ) : ℤ :=
  let e : ℤ := (Nat.log2 x.num.natAbs : ℤ) - (Nat.log2 x.den : ℤ)
  if x < (2 : ℚ) ^ e then e - 1 else e

/-- The value a positive decimal constant takes when Go converts it to
`float32`: 24 significant bits, round to nearest, ties to even.  (Only used
in the normal range, far from overflow and from the subnormals.) -/
def float32Const (x : ℚ) : ℚ :=
  let ulp : ℚ := (2 : ℚ) ^ (binaryExponent x - 23)
  (roundHalfEven (x / ulp) : ℚ) * ulp

/-- A rational is the value of a `float32` in the half-open interval `[0, 1)`:
its denominator is a power of two no larger than `2 ^ 149` and its numerator
fits the 24-bit significand. -/
def isFloat32Unit (u : ℚ) : Bool :=
  decide (0 ≤ u.num) && decide (u.num < u.den) && decide (u.num < 2 ^ 24) &&
    decide (u.den ∣ 2 ^ 149)

/-! ## gray_logic.go -/

/-- Concurrency threshold (`int64`). -/
def grayLogicConcurrencyThreshold : ℤ := 50

/-- The degraded `max_tokens` value (`int`). -/
def grayLogicMaxTokens : ℤ := 100

/-- The degraded temperature: the constant `1.2` at type `float32`. -/
def grayLogicTemperature : ℚ := float32Const (6 / 5)

/-- Process-wide state: the `activeRequests` counter and the shared
pseudorandom source, the latter as the stream of `float32` values its
successive `rand.Float32()` calls return, with the position reached. -/
structure World where
  activeRequests : ℤ
  randStream : ℕ → ℚ
  randPos : ℕ

/-- Two's-complement wrap-around of an `int64` result. -/
def wrapInt64 (x : ℤ) : ℤ := (x + 2 ^ 63) % 2 ^ 64 - 2 ^ 63

/-- The cell `atomic.AddInt64(&activeRequests, delta)`: stores and returns
the new value. -/
def atomicAddInt64 (delta : ℤ) (w : World) : ℤ × World :=
  let n := wrapInt64 (w.activeRequests + delta)
  (n, { w with activeRequests := n })

/-- Go `IncrementActiveRequests`. -/
def IncrementActiveRequests (w : World) : ℤ × World := atomicAddInt64 1 w

/-- Go `DecrementActiveRequests`. -/
def DecrementActiveRequests (w : World) : ℤ × World := atomicAddInt64 (-1) w

/-- Go `GetActiveRequests`: `atomic.LoadInt64(&activeRequests)`. -/
def GetActiveRequests (w : World) : ℤ := w.activeRequests

/-- Go `ShouldActivateGrayLogic`. -/
def ShouldActivateGrayLogic (w : World) : Bool :=
  let currentLoad := GetActiveRequests w
  decide (currentLoad > grayLogicConcurrencyThreshold)

/-- Go `GetGrayLogicConstants`: `(maxTokens, temperature, threshold)`. -/
def GetGrayLogicConstants : ℤ × ℚ × ℤ :=
  (grayLogicMaxTokens, grayLogicTemperature, grayLogicConcurrencyThreshold)

/-! ## virtual_policy.go -/

def PolicyModelHA : String := "policy-a-ha"
def PolicyModelCost : String := "policy-b-cost"
def PolicyModelQuality : String := "policy-c-quality"
def PolicyModelDegrade : String := "policy-d-degrade"

def ModelGPT4O : String := "gpt-4o"
def ModelClaude3Sonnet : String := "claude-3-sonnet-20240229"
def ModelGeminiFlash : String := "gemini-1.5-flash-latest"
def ModelClaude3Haiku : String := "claude-3-haiku-20240307"
def ModelGPT35Turbo : String := "gpt-3.5-turbo-0125"

/-- The draw the next `rand.Float32()` call returns. -/
def nextDraw (w : World) : ℚ := w.randStream w.randPos

/-- The call `rand.Float32()`: returns the next value of the shared source
and advances it. -/
def randFloat32 (w : World) : ℚ × World :=
  (nextDraw w, { w with randPos := w.randPos + 1 })

/-- Go `IsVirtualPolicyModel`. -/
def IsVirtualPolicyModel (modelName : String) : Bool :=
  if modelName = PolicyModelHA ∨ modelName = PolicyModelCost ∨
      modelName = PolicyModelQuality ∨ modelName = PolicyModelDegrade then true
  else false

/-- Go `resolvePolicyHA`. -/
def resolvePolicyHA (w : World) : String × World :=
  let (u, w1) := randFloat32 w
  if u < float32Const (1 / 2) then (ModelGPT4O, w1) else (ModelClaude3Sonnet, w1)

/-- Go `resolvePolicyCost`. -/
def resolvePolicyCost (w : World) : String × World :=
  let (u, w1) := randFloat32 w
  if u < float32Const (4 / 5) then (ModelGeminiFlash, w1) else (ModelClaude3Haiku, w1)

/-- Go `resolvePolicyQuality`. -/
def resolvePolicyQuality (w : World) : String × World := (ModelGPT4O, w)

/-- Go `resolvePolicyDegrade`. -/
def resolvePolicyDegrade (w : World) : String × World :=
  if ShouldActivateGrayLogic w then (ModelGPT35Turbo, w) else (ModelGPT4O, w)

/-- Go `ResolveVirtualPolicyModel`: the resolved name, whether the request
named a virtual policy, and the world afterwards. -/
def ResolveVirtualPolicyModel (virtualModel : String) (w : World) :
    (String × Bool) × World :=
  if virtualModel = PolicyModelHA then
    let (m, w1) := resolvePolicyHA w
    ((m, true), w1)
  else if virtualModel = PolicyModelCost then
    let (m, w1) := resolvePolicyCost w
    ((m, true), w1)
  else if virtualModel = PolicyModelQuality then
    let (m, w1) := resolvePolicyQuality w
    ((m, true), w1)
  else if virtualModel = PolicyModelDegrade then
    let (m, w1) := resolvePolicyDegrade w
    ((m, true), w1)
  else ((virtualModel, false), w)

/-! ## The request and the overload clamp -/

/-- Go `TestRequest` (scripts/test_gray_logic.go).  `Msg` stands for
`dto.OpenAIMessage`, whose declaration is in another package. -/
structure TestRequest (Msg : Type) where
  Model : String
  MaxTokens : ℤ
  Temperature : ℚ
  Messages : List Msg
  Stream : Bool

/-- The gray-logic step that `testRequestModification` applies to
`modifiedRequest` (scripts/test_gray_logic.go, lines 96 and 105 to 109). -/
def applyGrayLogic {Msg : Type} (modifiedRequest : TestRequest Msg) : TestRequest Msg :=
  let (grayMaxTokens, grayTemperature, _) := GetGrayLogicConstants
  let r1 : TestRequest Msg :=
    if modifiedRequest.MaxTokens > grayMaxTokens then
      { modifiedRequest with MaxTokens := grayMaxTokens }
    else modifiedRequest
  { r1 with Temperature := grayTemperature }

/-- Modelled from the spec: the Overload Clamp of section 4.3, whose gateway
implementation is not among the sources.  When the gauge is overloaded,
`max_tokens` above the ceiling is set to the ceiling, `temperature` is
overwritten with the fixed value and `model` is left alone; otherwise the
request is returned as it is.  The ceiling and the fixed value are the
constants of `GetGrayLogicConstants`. -/
def clamp {Msg : Type} (req : TestRequest Msg) (w : World) : TestRequest Msg :=
  if ShouldActivateGrayLogic w then
    { req with
      MaxTokens :=
        if req.MaxTokens > GetGrayLogicConstants.1 then GetGrayLogicConstants.1
        else req.MaxTokens
      Temperature := GetGrayLogicConstants.2.1 }
  else req

/-! ## Sequences of calls

Every gauge operation is a single atomic instruction on the one cell, so an
execution by any number of concurrent callers is some sequence of calls, each
running to completion on the state the previous one left. -/

/-- A call to one of the exported functions of the package. -/
inductive Call where
  | increment
  | decrement
  | getActive
  | shouldActivate
  | resolve (virtualModel : String)
  deriving DecidableEq

/-- What a call returns. -/
inductive CallResult where
  | int (v : ℤ)
  | bool (b : Bool)
  | resolved (r : String × Bool)
  deriving DecidableEq

/-- Perform one call: the value it returns and the state it leaves. -/
def perform : Call → World → CallResult × World
  | Call.increment, w => (CallResult.int (IncrementActiveRequests w).1, (IncrementActiveRequests w).2)
  | Call.decrement, w => (CallResult.int (DecrementActiveRequests w).1, (DecrementActiveRequests w).2)
  | Call.getActive, w => (CallResult.int (GetActiveRequests w), w)
  | Call.shouldActivate, w => (CallResult.bool (ShouldActivateGrayLogic w), w)
  | Call.resolve virtualModel, w =>
      (CallResult.resolved (ResolveVirtualPolicyModel virtualModel w).1,
        (ResolveVirtualPolicyModel virtualModel w).2)

/-- Perform a sequence of calls in order: each call with what it returned, and
the final state. -/
def runCalls : List Call → World → List (Call × CallResult) × World
  | [], w => ([], w)
  | c :: cs, w =>
      ((c, (perform c w).1) :: (runCalls cs (perform c w).2).1,
        (runCalls cs (perform c w).2).2)

/-- The values returned by the `IncrementActiveRequests` calls of a trace, in
order. -/
def incrementResults : List (Call × CallResult) → List ℤ
  | [] => []
  | (Call.increment, CallResult.int v) :: rest => v :: incrementResults rest
  | _ :: rest => incrementResults rest

/-! ## The gateway flow -/

/-- The body of the loop of `simulateMiddlewareFlow`
(scripts/test_routing_fix.go) for one requested model: the model handed to the
channel lookup, the model the user sees, and the state afterwards. -/
def simulateMiddlewareFlow (requestedModel : String) (w : World) :
    (String × String) × World :=
  if IsVirtualPolicyModel requestedModel then
    let originalModelName := requestedModel
    let r := ResolveVirtualPolicyModel originalModelName w
    let channelLookupModel := if r.1.2 then r.1.1 else requestedModel
    ((channelLookupModel,
      if originalModelName ≠ "" then originalModelName else channelLookupModel), r.2)
  else
    ((requestedModel, requestedModel), w)

/-- What the upstream sends back: the `model` field of the unary response and
of each streaming chunk. -/
structure UpstreamReply where
  unaryModel : String
  chunkModels : List String

/-- Modelled from the spec: the gateway-core contract of section 6 (with the
response rewrite of section 4.4), whose implementation is not among the
sources.  At entry the requested model is resolved, the original name and
`was_virtual` are stashed, the request is given the concrete model and the
gauge is incremented; before dispatch the request is clamped; the upstream
answers the dispatched request; the gauge is decremented; on emission, if
`was_virtual`, the model field of the unary response and of every chunk is
overwritten with the stashed name.  Returns the dispatched request, what the
client observes and the state afterwards. -/
def gatewayFlow {Msg : Type} (req : TestRequest Msg)
    (upstream : TestRequest Msg → UpstreamReply) (w : World) :
    (TestRequest Msg × UpstreamReply) × World :=
  let r := ResolveVirtualPolicyModel req.Model w
  let stash : String × Bool := (req.Model, r.1.2)
  let req1 : TestRequest Msg := { req with Model := r.1.1 }
  let w2 := (IncrementActiveRequests r.2).2
  let req2 := clamp req1 w2
  let reply := upstream req2
  let w3 := (DecrementActiveRequests w2).2
  let observed : UpstreamReply :=
    if stash.2 then
      { unaryModel := stash.1, chunkModels := reply.chunkModels.map (fun _ => stash.1) }
    else reply
  ((req2, observed), w3)

/-- The spoofing step of `testModelNameSpoofing` (scripts/test_gray_logic.go,
lines 156 and 186, and scripts/test_virtual_policy.go): the `model` field of
the response and of the stream chunk is overwritten with the original model
name, whatever the request was. -/
def spoofResponse (originalModelName : String) (reply : UpstreamReply) : UpstreamReply :=
  { unaryModel := originalModelName
    chunkModels := reply.chunkModels.map (fun _ => originalModelName) }

/-! ## Counting resolutions -/

/-- The counting loops of `testPolicyStatistics`
(scripts/test_virtual_policy.go): resolve `virtualModel` `totalTests` times
in a row on the shared random source and count the calls that return `model`
(`geminiCount`, `gpt4Count`).  Returns the count and the state afterwards. -/
def countResolved (virtualModel model : String) : ℕ → World → ℕ × World
  | 0, w => (0, w)
  | totalTests + 1, w =>
      ((if (ResolveVirtualPolicyModel virtualModel w).1.1 = model then 1 else 0) +
          (countResolved virtualModel model totalTests
            (ResolveVirtualPolicyModel virtualModel w).2).1,
        (countResolved virtualModel model totalTests
          (ResolveVirtualPolicyModel virtualModel w).2).2)

/-- The number of the next `n` draws of the source that lie below `t`. -/
def drawsBelow (t : ℚ) (n : ℕ) (w : World) : ℕ :=
  (List.range n).countP (fun i => decide (w.randStream (w.randPos + i) < t))

/-- A sample source: ten `float32` draws, repeated for ever, of which eight lie
below `0.8` and five below `0.5`. -/
def sampleSource : World :=
  { activeRequests := 0
    randStream := fun i =>
      [0, 1 / 8, 1 / 4, 3 / 8, 7 / 16, 1 / 2, 5 / 8, 3 / 4, 7 / 8, 15 / 16].getD (i % 10) 0
    randPos := 0 }

/-! ## Decrements between increments -/

/-- Whether at most one `DecrementActiveRequests` call stands between any two
successive `IncrementActiveRequests` calls of a sequence.  The first argument
is the number of decrements seen since the last increment, if there was
one. -/
def atMostOneDecrementBetween : Option ℕ → List Call → Bool
  | _, [] => true
  | none, Call.increment :: cs => atMostOneDecrementBetween (some 0) cs
  | some d, Call.increment :: cs => decide (d ≤ 1) && atMostOneDecrementBetween (some 0) cs
  | none, Call.decrement :: cs => atMostOneDecrementBetween none cs
  | some d, Call.decrement :: cs => atMostOneDecrementBetween (some (d + 1)) cs
  | g, _ :: cs => atMostOneDecrementBetween g cs

/-! ## Facts about the float32 constants -/

theorem float32Const_half : float32Const (1 / 2) = 1 / 2 := by decide!

theorem float32Const_four_fifths : float32Const (4 / 5) = 13421773 / 16777216 := by
  decide!

theorem float32Const_six_fifths : float32Const (6 / 5) = 5033165 / 4194304 := by
  decide!

/-- No `float32` lies between `4/5` and the `float32` nearest to it, so on
`float32` draws in `[0, 1)` comparing with the rounded constant is comparing
with `4/5`. -/
theorem float32_lt_four_fifths (u : ℚ) (hu : isFloat32Unit u = true) :
    u < float32Const (4 / 5) ↔ u < 4 / 5 := by
  rw [float32Const_four_fifths]
  constructor
  · intro h1
    by_contra h2
    rw [not_lt] at h2
    simp only [isFloat32Unit, Bool.and_eq_true, decide_eq_true_eq] at hu
    obtain ⟨⟨⟨h0, hlt⟩, h24⟩, hdvd⟩ := hu
    obtain ⟨k, hk, hden⟩ := (Nat.dvd_prime_pow Nat.prime_two).1 hdvd
    rw [Rat.lt_def] at h1
    rw [Rat.le_def] at h2
    norm_num at h1 h2
    rw [hden] at h1 h2
    push_cast at h1 h2
    have hk25 : k < 25 := by
      by_contra hge
      rw [not_lt] at hge
      have hp : (2 : ℤ) ^ 25 ≤ 2 ^ k := pow_le_pow_right₀ (by norm_num) hge
      norm_num at hp h24
      omega
    interval_cases k <;> norm_num at h1 h2 <;> omega
  · intro h
    have : (4 / 5 : ℚ) < 13421773 / 16777216 := by norm_num
    exact lt_trans h this

/-! ## Unfolding the resolver -/

theorem resolve_ha (w : World) :
    (ResolveVirtualPolicyModel "policy-a-ha" w).1 =
      (if nextDraw w < 1 / 2 then "gpt-4o" else "claude-3-sonnet-20240229", true) := by
  simp only [ResolveVirtualPolicyModel, PolicyModelHA, resolvePolicyHA, randFloat32,
    float32Const_half, ModelGPT4O, ModelClaude3Sonnet, if_true]
  split <;> rfl

theorem resolve_cost (w : World) :
    (ResolveVirtualPolicyModel "policy-b-cost" w).1 =
      (if nextDraw w < float32Const (4 / 5) then "gemini-1.5-flash-latest"
        else "claude-3-haiku-20240307", true) := by
  have h : ("policy-b-cost" : String) ≠ "policy-a-ha" := by decide
  simp only [ResolveVirtualPolicyModel, PolicyModelHA, PolicyModelCost, resolvePolicyCost,
    randFloat32, ModelGeminiFlash, ModelClaude3Haiku, if_true, if_neg h]
  split <;> rfl

theorem resolve_quality (w : World) :
    ResolveVirtualPolicyModel "policy-c-quality" w = (("gpt-4o", true), w) := by
  have h1 : ("policy-c-quality" : String) ≠ "policy-a-ha" := by decide
  have h2 : ("policy-c-quality" : String) ≠ "policy-b-cost" := by decide
  simp only [ResolveVirtualPolicyModel, PolicyModelHA, PolicyModelCost, PolicyModelQuality,
    resolvePolicyQuality, ModelGPT4O, if_true, if_neg h1, if_neg h2]

theorem resolve_degrade (w : World) :
    ResolveVirtualPolicyModel "policy-d-degrade" w =
      ((if 50 < w.activeRequests then "gpt-3.5-turbo-0125" else "gpt-4o", true), w) := by
  have h1 : ("policy-d-degrade" : String) ≠ "policy-a-ha" := by decide
  have h2 : ("policy-d-degrade" : String) ≠ "policy-b-cost" := by decide
  have h3 : ("policy-d-degrade" : String) ≠ "policy-c-quality" := by decide
  simp only [ResolveVirtualPolicyModel, PolicyModelHA, PolicyModelCost, PolicyModelQuality,
    PolicyModelDegrade, resolvePolicyDegrade, ShouldActivateGrayLogic, GetActiveRequests,
    grayLogicConcurrencyThreshold, ModelGPT4O, ModelGPT35Turbo, if_true, if_neg h1, if_neg h2,
    if_neg h3, gt_iff_lt, decide_eq_true_eq]
  split <;> rfl

theorem resolve_other (s : String) (w : World)
    (hs : s ≠ "policy-a-ha" ∧ s ≠ "policy-b-cost" ∧ s ≠ "policy-c-quality" ∧
      s ≠ "policy-d-degrade") :
    ResolveVirtualPolicyModel s w = ((s, false), w) := by
  obtain ⟨h1, h2, h3, h4⟩ := hs
  simp only [ResolveVirtualPolicyModel, PolicyModelHA, PolicyModelCost, PolicyModelQuality,
    PolicyModelDegrade, if_neg h1, if_neg h2, if_neg h3, if_neg h4]

theorem isVirtual_iff (s : String) :
    IsVirtualPolicyModel s = true ↔
      (s = "policy-a-ha" ∨ s = "policy-b-cost" ∨ s = "policy-c-quality" ∨
        s = "policy-d-degrade") := by
  simp only [IsVirtualPolicyModel, PolicyModelHA, PolicyModelCost, PolicyModelQuality,
    PolicyModelDegrade]
  split <;> simp_all

/-! ## Claims -/

/-- Claim C1: for every counter value `c` and every state of the random
source, resolving `policy-d-degrade` gives `("gpt-4o", true)` when `c ≤ 50`
and `("gpt-3.5-turbo-0125", true)` when `c > 50`; at `c = 50` it is `gpt-4o`
and at `c = 51` it is `gpt-3.5-turbo-0125`. -/
theorem C1_degrade_threshold :
    (∀ (c : ℤ) (draws : ℕ → ℚ) (pos : ℕ),
      (c ≤ 50 →
        (ResolveVirtualPolicyModel "policy-d-degrade" ⟨c, draws, pos⟩).1 = ("gpt-4o", true)) ∧
      (c > 50 →
        (ResolveVirtualPolicyModel "policy-d-degrade" ⟨c, draws, pos⟩).1 =
          ("gpt-3.5-turbo-0125", true))) ∧
    (∀ (draws : ℕ → ℚ) (pos : ℕ),
      (ResolveVirtualPolicyModel "policy-d-degrade" ⟨50, draws, pos⟩).1 = ("gpt-4o", true) ∧
      (ResolveVirtualPolicyModel "policy-d-degrade" ⟨51, draws, pos⟩).1 =
        ("gpt-3.5-turbo-0125", true)) := by
  have key : ∀ (c : ℤ) (draws : ℕ → ℚ) (pos : ℕ),
      (c ≤ 50 →
        (ResolveVirtualPolicyModel "policy-d-degrade" ⟨c, draws, pos⟩).1 = ("gpt-4o", true)) ∧
      (c > 50 →
        (ResolveVirtualPolicyModel "policy-d-degrade" ⟨c, draws, pos⟩).1 =
          ("gpt-3.5-turbo-0125", true)) := by
    intro c draws pos
    rw [resolve_degrade]
    constructor
    · intro h
      have h' : ¬ (50 < c) := not_lt.mpr h
      simp only [if_neg h']
    · intro h
      have h' : 50 < c := h
      simp only [if_pos h']
  refine ⟨key, fun draws pos => ⟨?_, ?_⟩⟩
  · exact (key 50 draws pos).1 (by norm_num)
  · exact (key 51 draws pos).2 (by norm_num)

/-- Claim C2: for every counter value, `ShouldActivateGrayLogic` is true
exactly when the counter is strictly above the threshold returned by
`GetGrayLogicConstants`, which is 50; at exactly 50 it is false and at 51 it
is true. -/
theorem C2_overloaded_iff :
    GetGrayLogicConstants.2.2 = 50 ∧
    (∀ w : World,
      ShouldActivateGrayLogic w = true ↔ GetActiveRequests w > GetGrayLogicConstants.2.2) ∧
    (∀ (c : ℤ) (draws : ℕ → ℚ) (pos : ℕ),
      ShouldActivateGrayLogic ⟨c, draws, pos⟩ = true ↔ c > 50) ∧
    (∀ (draws : ℕ → ℚ) (pos : ℕ),
      ShouldActivateGrayLogic ⟨50, draws, pos⟩ = false ∧
      ShouldActivateGrayLogic ⟨51, draws, pos⟩ = true) := by
  refine ⟨rfl, fun w => ?_, fun c draws pos => ?_, fun draws pos => ⟨?_, ?_⟩⟩
  · simp [ShouldActivateGrayLogic, GetGrayLogicConstants]
  · simp [ShouldActivateGrayLogic, GetActiveRequests, grayLogicConcurrencyThreshold]
  · simp [ShouldActivateGrayLogic, GetActiveRequests, grayLogicConcurrencyThreshold]
  · simp [ShouldActivateGrayLogic, GetActiveRequests, grayLogicConcurrencyThreshold]

/-- Claim C3: for every string `s` that is not one of the four virtual tags,
whatever the counter and the random source, `ResolveVirtualPolicyModel s`
returns `(s, false)` and `IsVirtualPolicyModel s` is false.  The resolver is
a total function, so it returns on every input. -/
theorem C3_identity_on_non_virtual (s : String) (w : World)
    (hs : s ≠ "policy-a-ha" ∧ s ≠ "policy-b-cost" ∧ s ≠ "policy-c-quality" ∧
      s ≠ "policy-d-degrade") :
    (ResolveVirtualPolicyModel s w).1 = (s, false) ∧ IsVirtualPolicyModel s = false := by
  constructor
  · rw [resolve_other s w hs]
  · have h := isVirtual_iff s
    obtain ⟨h1, h2, h3, h4⟩ := hs
    cases hv : IsVirtualPolicyModel s
    · rfl
    · rcases h.1 hv with h | h | h | h
      · exact absurd h h1
      · exact absurd h h2
      · exact absurd h h3
      · exact absurd h h4

/-- Witness of C3 at the empty string, at a tag in other letter case and at a
tag with a leading blank. -/
theorem C3_identity_on_non_virtual_witness :
    ((ResolveVirtualPolicyModel "" ⟨0, fun _ => 0, 0⟩).1 = ("", false) ∧
      IsVirtualPolicyModel "" = false) ∧
    ((ResolveVirtualPolicyModel "Policy-A-HA" ⟨60, fun _ => 0, 0⟩).1 =
        ("Policy-A-HA", false) ∧
      IsVirtualPolicyModel "Policy-A-HA" = false) ∧
    ((ResolveVirtualPolicyModel " policy-d-degrade" ⟨60, fun _ => 1 / 4, 0⟩).1 =
        (" policy-d-degrade", false) ∧
      IsVirtualPolicyModel " policy-d-degrade" = false) :=
  ⟨C3_identity_on_non_virtual "" ⟨0, fun _ => 0, 0⟩ (by decide),
   C3_identity_on_non_virtual "Policy-A-HA" ⟨60, fun _ => 0, 0⟩ (by decide),
   C3_identity_on_non_virtual " policy-d-degrade" ⟨60, fun _ => 1 / 4, 0⟩ (by decide)⟩

/-- Claim C4: for every string, every counter value and every state of the
random source, `IsVirtualPolicyModel id` is true exactly when the second
component returned by `ResolveVirtualPolicyModel id` is true. -/
theorem C4_is_virtual_consistent (id : String) (w : World) :
    IsVirtualPolicyModel id = true ↔ (ResolveVirtualPolicyModel id w).1.2 = true := by
  by_cases h1 : id = "policy-a-ha"
  · subst h1
    rw [resolve_ha]
    simp [isVirtual_iff]
  by_cases h2 : id = "policy-b-cost"
  · subst h2
    rw [resolve_cost]
    simp [isVirtual_iff]
  by_cases h3 : id = "policy-c-quality"
  · subst h3
    rw [resolve_quality]
    simp [isVirtual_iff]
  by_cases h4 : id = "policy-d-degrade"
  · subst h4
    rw [resolve_degrade]
    simp [isVirtual_iff]
  · rw [resolve_other id w ⟨h1, h2, h3, h4⟩, isVirtual_iff]
    simp [h1, h2, h3, h4]

/-- Claim C5: for every virtual tag, every counter value and every state of
the random source, the resolver reports `was_virtual = true` and a concrete
id inside that policy's candidate set, hence one of the five well-known
concrete ids. -/
theorem C5_virtual_closure (v : String) (w : World)
    (hv : v = "policy-a-ha" ∨ v = "policy-b-cost" ∨ v = "policy-c-quality" ∨
      v = "policy-d-degrade") :
    (ResolveVirtualPolicyModel v w).1.2 = true ∧
    (v = "policy-a-ha" →
      (ResolveVirtualPolicyModel v w).1.1 = "gpt-4o" ∨
      (ResolveVirtualPolicyModel v w).1.1 = "claude-3-sonnet-20240229") ∧
    (v = "policy-b-cost" →
      (ResolveVirtualPolicyModel v w).1.1 = "gemini-1.5-flash-latest" ∨
      (ResolveVirtualPolicyModel v w).1.1 = "claude-3-haiku-20240307") ∧
    (v = "policy-c-quality" → (ResolveVirtualPolicyModel v w).1.1 = "gpt-4o") ∧
    (v = "policy-d-degrade" →
      (ResolveVirtualPolicyModel v w).1.1 = "gpt-4o" ∨
      (ResolveVirtualPolicyModel v w).1.1 = "gpt-3.5-turbo-0125") ∧
    (ResolveVirtualPolicyModel v w).1.1 ∈
      ["gpt-4o", "claude-3-sonnet-20240229", "gemini-1.5-flash-latest",
        "claude-3-haiku-20240307", "gpt-3.5-turbo-0125"] := by
  rcases hv with h | h | h | h
  · subst h
    rw [resolve_ha]
    refine ⟨rfl, ?_, ?_, ?_, ?_, ?_⟩
    · intro _
      by_cases hd : nextDraw w < 1 / 2
      · left; simp only [if_pos hd]
      · right; simp only [if_neg hd]
    · intro hne; exact absurd hne (by decide)
    · intro hne; exact absurd hne (by decide)
    · intro hne; exact absurd hne (by decide)
    · by_cases hd : nextDraw w < 1 / 2
      · simp only [if_pos hd]; decide
      · simp only [if_neg hd]; decide
  · subst h
    rw [resolve_cost]
    refine ⟨rfl, ?_, ?_, ?_, ?_, ?_⟩
    · intro hne; exact absurd hne (by decide)
    · intro _
      by_cases hd : nextDraw w < float32Const (4 / 5)
      · left; simp only [if_pos hd]
      · right; simp only [if_neg hd]
    · intro hne; exact absurd hne (by decide)
    · intro hne; exact absurd hne (by decide)
    · by_cases hd : nextDraw w < float32Const (4 / 5)
      · simp only [if_pos hd]; decide
      · simp only [if_neg hd]; decide
  · subst h
    rw [resolve_quality]
    refine ⟨rfl, ?_, ?_, ?_, ?_, ?_⟩
    · intro hne; exact absurd hne (by decide)
    · intro hne; exact absurd hne (by decide)
    · intro _; rfl
    · intro hne; exact absurd hne (by decide)
    · simp
  · subst h
    rw [resolve_degrade]
    refine ⟨rfl, ?_, ?_, ?_, ?_, ?_⟩
    · intro hne; exact absurd hne (by decide)
    · intro hne; exact absurd hne (by decide)
    · intro hne; exact absurd hne (by decide)
    · intro _
      by_cases hd : 50 < w.activeRequests
      · right; simp only [if_pos hd]
      · left; simp only [if_neg hd]
    · by_cases hd : 50 < w.activeRequests
      · simp only [if_pos hd]; decide
      · simp only [if_neg hd]; decide

/-- Witness of C5 at `policy-d-degrade` with the counter at 51. -/
theorem C5_virtual_closure_witness :
    (ResolveVirtualPolicyModel "policy-d-degrade" ⟨51, fun _ => 0, 0⟩).1.2 = true ∧
    (ResolveVirtualPolicyModel "policy-d-degrade" ⟨51, fun _ => 0, 0⟩).1.1 ∈
      ["gpt-4o", "claude-3-sonnet-20240229", "gemini-1.5-flash-latest",
        "claude-3-haiku-20240307", "gpt-3.5-turbo-0125"] :=
  ⟨(C5_virtual_closure "policy-d-degrade" ⟨51, fun _ => 0, 0⟩
      (Or.inr (Or.inr (Or.inr rfl)))).1,
   (C5_virtual_closure "policy-d-degrade" ⟨51, fun _ => 0, 0⟩
      (Or.inr (Or.inr (Or.inr rfl)))).2.2.2.2.2⟩

/-- Claim C6: resolving `policy-a-ha` gives `gpt-4o` exactly when the draw
`u` is below `0.5` and `claude-3-sonnet-20240229` otherwise (so at
`u = 0.5`), whatever the counter; each outcome is reached by some `float32`
draw of `[0, 1)`. -/
theorem C6_ha_split :
    (∀ w : World,
      ((ResolveVirtualPolicyModel "policy-a-ha" w).1 = ("gpt-4o", true) ↔
        nextDraw w < 1 / 2) ∧
      ((ResolveVirtualPolicyModel "policy-a-ha" w).1 = ("claude-3-sonnet-20240229", true) ↔
        ¬ nextDraw w < 1 / 2)) ∧
    (∀ (c : ℤ) (pos : ℕ),
      (ResolveVirtualPolicyModel "policy-a-ha" ⟨c, fun _ => 1 / 2, pos⟩).1 =
        ("claude-3-sonnet-20240229", true)) ∧
    (∀ (c c' : ℤ) (draws : ℕ → ℚ) (pos : ℕ),
      (ResolveVirtualPolicyModel "policy-a-ha" ⟨c, draws, pos⟩).1 =
        (ResolveVirtualPolicyModel "policy-a-ha" ⟨c', draws, pos⟩).1) ∧
    (∃ w : World, isFloat32Unit (nextDraw w) = true ∧
      (ResolveVirtualPolicyModel "policy-a-ha" w).1 = ("gpt-4o", true)) ∧
    (∃ w : World, isFloat32Unit (nextDraw w) = true ∧
      (ResolveVirtualPolicyModel "policy-a-ha" w).1 = ("claude-3-sonnet-20240229", true)) := by
  have hne : ("gpt-4o" : String) ≠ "claude-3-sonnet-20240229" := by decide
  refine ⟨fun w => ⟨?_, ?_⟩, fun c pos => ?_, fun c c' draws pos => ?_, ?_, ?_⟩
  · rw [resolve_ha]
    by_cases hd : nextDraw w < 1 / 2
    · rw [if_pos hd]
      exact ⟨fun _ => hd, fun _ => rfl⟩
    · rw [if_neg hd]
      exact ⟨fun h => absurd (congrArg Prod.fst h) hne.symm, fun h => absurd h hd⟩
  · rw [resolve_ha]
    by_cases hd : nextDraw w < 1 / 2
    · rw [if_pos hd]
      exact ⟨fun h => absurd (congrArg Prod.fst h) hne, fun h => absurd hd h⟩
    · rw [if_neg hd]
      exact ⟨fun _ => hd, fun _ => rfl⟩
  · rw [resolve_ha]
    have hd : ¬ (nextDraw ⟨c, fun _ => 1 / 2, pos⟩ < 1 / 2) := by
      simp [nextDraw]
    simp only [if_neg hd]
  · rw [resolve_ha, resolve_ha]
    rfl
  · refine ⟨⟨0, fun _ => 0, 0⟩, by decide!, ?_⟩
    rw [resolve_ha]
    have hd : nextDraw ⟨0, fun _ => 0, 0⟩ < 1 / 2 := by
      simp [nextDraw]
    simp only [if_pos hd]
  · refine ⟨⟨0, fun _ => 1 / 2, 0⟩, by decide!, ?_⟩
    rw [resolve_ha]
    have hd : ¬ (nextDraw ⟨0, fun _ => 1 / 2, 0⟩ < 1 / 2) := by
      simp [nextDraw]
    simp only [if_neg hd]

/-- Claim C7: for every `float32` draw `u` of `[0, 1)`, resolving
`policy-b-cost` gives `gemini-1.5-flash-latest` exactly when `u < 0.8` and
`claude-3-haiku-20240307` otherwise, whatever the counter; each outcome is
reached by some such draw. -/
theorem C7_cost_split (w : World) (hu : isFloat32Unit (nextDraw w) = true) :
    ((ResolveVirtualPolicyModel "policy-b-cost" w).1 = ("gemini-1.5-flash-latest", true) ↔
      nextDraw w < 4 / 5) ∧
    ((ResolveVirtualPolicyModel "policy-b-cost" w).1 = ("claude-3-haiku-20240307", true) ↔
      ¬ nextDraw w < 4 / 5) ∧
    (∀ c : ℤ,
      (ResolveVirtualPolicyModel "policy-b-cost" { w with activeRequests := c }).1 =
        (ResolveVirtualPolicyModel "policy-b-cost" w).1) ∧
    (∃ w1 : World, isFloat32Unit (nextDraw w1) = true ∧
      (ResolveVirtualPolicyModel "policy-b-cost" w1).1 = ("gemini-1.5-flash-latest", true)) ∧
    (∃ w2 : World, isFloat32Unit (nextDraw w2) = true ∧
      (ResolveVirtualPolicyModel "policy-b-cost" w2).1 =
        ("claude-3-haiku-20240307", true)) := by
  have hne : ("gemini-1.5-flash-latest" : String) ≠ "claude-3-haiku-20240307" := by decide
  have hcut := float32_lt_four_fifths (nextDraw w) hu
  refine ⟨?_, ?_, fun c => ?_, ?_, ?_⟩
  · rw [resolve_cost]
    by_cases hd : nextDraw w < float32Const (4 / 5)
    · rw [if_pos hd]
      exact ⟨fun _ => hcut.1 hd, fun _ => rfl⟩
    · rw [if_neg hd]
      exact ⟨fun h => absurd (congrArg Prod.fst h) hne.symm, fun h => absurd (hcut.2 h) hd⟩
  · rw [resolve_cost]
    by_cases hd : nextDraw w < float32Const (4 / 5)
    · rw [if_pos hd]
      exact ⟨fun h => absurd (congrArg Prod.fst h) hne, fun h => absurd (hcut.1 hd) h⟩
    · rw [if_neg hd]
      exact ⟨fun _ h => hd (hcut.2 h), fun _ => rfl⟩
  · rw [resolve_cost, resolve_cost]
    rfl
  · refine ⟨⟨0, fun _ => 0, 0⟩, by decide!, ?_⟩
    rw [resolve_cost, float32Const_four_fifths]
    have hd : nextDraw ⟨0, fun _ => 0, 0⟩ < 13421773 / 16777216 := by
      simp only [nextDraw]
      norm_num
    rw [if_pos hd]
  · refine ⟨⟨0, fun _ => 7 / 8, 0⟩, by decide!, ?_⟩
    rw [resolve_cost, float32Const_four_fifths]
    have hd : ¬ (nextDraw ⟨0, fun _ => 7 / 8, 0⟩ < 13421773 / 16777216) := by
      simp only [nextDraw]
      norm_num
    rw [if_neg hd]

/-- Witness of C7 at the largest `float32` below `0.8`, with the counter
overloaded. -/
theorem C7_cost_split_witness :
    isFloat32Unit (13421772 / 16777216) = true ∧
    ((ResolveVirtualPolicyModel "policy-b-cost" ⟨60, fun _ => 13421772 / 16777216, 0⟩).1 =
        ("gemini-1.5-flash-latest", true) ↔
      (13421772 / 16777216 : ℚ) < 4 / 5) :=
  ⟨by decide!, (C7_cost_split ⟨60, fun _ => 13421772 / 16777216, 0⟩ (by decide!)).1⟩

/-- Claim C8: resolving `policy-c-quality` gives `("gpt-4o", true)` for every
counter value, overloaded or not, and every state of the random source. -/
theorem C8_quality_constant :
    (∀ (c : ℤ) (draws : ℕ → ℚ) (pos : ℕ),
      (ResolveVirtualPolicyModel "policy-c-quality" ⟨c, draws, pos⟩).1 = ("gpt-4o", true)) ∧
    (∀ w w' : World,
      (ResolveVirtualPolicyModel "policy-c-quality" w).1 =
        (ResolveVirtualPolicyModel "policy-c-quality" w').1) := by
  refine ⟨fun c draws pos => ?_, fun w w' => ?_⟩
  · rw [resolve_quality]
  · rw [resolve_quality, resolve_quality]

/-- Claim C9: under overload the clamp maps a request to the same request
with `max_tokens` replaced by `min(max_tokens, 100)` and `temperature` by the
`float32` constant `1.2`: above 100 the ceiling is taken, at or below 100 the
value is kept, and the temperature is overwritten whatever it was.  The
result is what the gray-logic step of the test script computes. -/
theorem C9_clamp_under_overload {Msg : Type} (req : TestRequest Msg) (w : World)
    (hw : ShouldActivateGrayLogic w = true) :
    clamp req w =
      { Model := req.Model, MaxTokens := min req.MaxTokens 100,
        Temperature := float32Const (6 / 5), Messages := req.Messages,
        Stream := req.Stream } ∧
    (req.MaxTokens > 100 → (clamp req w).MaxTokens = 100) ∧
    (req.MaxTokens ≤ 100 → (clamp req w).MaxTokens = req.MaxTokens) ∧
    (clamp req w).Temperature = float32Const (6 / 5) ∧
    clamp req w = applyGrayLogic req := by
  have hmin : (if req.MaxTokens > 100 then (100 : ℤ) else req.MaxTokens) =
      min req.MaxTokens 100 := by
    by_cases h : req.MaxTokens > 100
    · rw [if_pos h, min_eq_right (le_of_lt h)]
    · rw [if_neg h, min_eq_left (not_lt.mp h)]
  have hc : clamp req w =
      { Model := req.Model, MaxTokens := min req.MaxTokens 100,
        Temperature := float32Const (6 / 5), Messages := req.Messages,
        Stream := req.Stream } := by
    simp only [clamp, hw, if_true, GetGrayLogicConstants, grayLogicMaxTokens,
      grayLogicTemperature, hmin]
  refine ⟨hc, ?_, ?_, ?_, ?_⟩
  · intro h
    rw [hc]
    exact min_eq_right (le_of_lt h)
  · intro h
    rw [hc]
    exact min_eq_left h
  · rw [hc]
  · rw [hc]
    simp only [applyGrayLogic, GetGrayLogicConstants, grayLogicMaxTokens, grayLogicTemperature]
    by_cases h : req.MaxTokens > 100
    · simp only [if_pos h, min_eq_right (le_of_lt h)]
    · simp only [if_neg h, min_eq_left (not_lt.mp h)]

/-- Witness of C9 with the counter at 51: a request with `max_tokens` 50 and
temperature `0.3` keeps its 50 tokens and takes the fixed temperature. -/
theorem C9_clamp_under_overload_witness :
    ShouldActivateGrayLogic ⟨51, fun _ => 0, 0⟩ = true ∧
    (clamp (⟨"gpt-4", 50, 3 / 10, [], false⟩ : TestRequest Unit) ⟨51, fun _ => 0, 0⟩).MaxTokens
      = 50 ∧
    (clamp (⟨"gpt-4", 50, 3 / 10, [], false⟩ : TestRequest Unit)
      ⟨51, fun _ => 0, 0⟩).Temperature = float32Const (6 / 5) :=
  ⟨by decide,
   (C9_clamp_under_overload (⟨"gpt-4", 50, 3 / 10, [], false⟩ : TestRequest Unit)
      ⟨51, fun _ => 0, 0⟩ (by decide)).2.2.1 (by decide),
   (C9_clamp_under_overload (⟨"gpt-4", 50, 3 / 10, [], false⟩ : TestRequest Unit)
      ⟨51, fun _ => 0, 0⟩ (by decide)).2.2.2.1⟩

/-- Claim C10: for every request and every counter value the clamp leaves
`model`, `messages` and `stream` as they were; so does the gray-logic step of
the test script. -/
theorem C10_clamp_frame {Msg : Type} (req : TestRequest Msg) (w : World) :
    (clamp req w).Model = req.Model ∧
    (clamp req w).Messages = req.Messages ∧
    (clamp req w).Stream = req.Stream ∧
    (applyGrayLogic req).Model = req.Model ∧
    (applyGrayLogic req).Messages = req.Messages ∧
    (applyGrayLogic req).Stream = req.Stream := by
  have hc : (clamp req w).Model = req.Model ∧ (clamp req w).Messages = req.Messages ∧
      (clamp req w).Stream = req.Stream := by
    unfold clamp
    split
    · exact ⟨rfl, rfl, rfl⟩
    · exact ⟨rfl, rfl, rfl⟩
  have ha : (applyGrayLogic req).Model = req.Model ∧
      (applyGrayLogic req).Messages = req.Messages ∧
      (applyGrayLogic req).Stream = req.Stream := by
    simp only [applyGrayLogic, GetGrayLogicConstants]
    split
    · exact ⟨rfl, rfl, rfl⟩
    · exact ⟨rfl, rfl, rfl⟩
  exact ⟨hc.1, hc.2.1, hc.2.2, ha.1, ha.2.1, ha.2.2⟩

/-- Claim C11: with the gauge overloaded, applying the clamp twice gives the
same request as applying it once; so does applying the gray-logic step of the
test script twice. -/
theorem C11_clamp_idempotent {Msg : Type} (req : TestRequest Msg) (w : World)
    (hw : ShouldActivateGrayLogic w = true) :
    clamp (clamp req w) w = clamp req w ∧
    applyGrayLogic (applyGrayLogic req) = applyGrayLogic req := by
  have hstep : ∀ r : TestRequest Msg, clamp r w = applyGrayLogic r := by
    intro r
    simp only [clamp, hw, if_true, applyGrayLogic, GetGrayLogicConstants]
    split <;> rfl
  have hidem : applyGrayLogic (applyGrayLogic req) = applyGrayLogic req := by
    simp only [applyGrayLogic, GetGrayLogicConstants, grayLogicMaxTokens]
    by_cases h : req.MaxTokens > 100
    · simp [if_pos h]
    · simp [if_neg h]
  refine ⟨?_, hidem⟩
  rw [hstep (clamp req w), hstep req]
  exact hidem

/-- Witness of C11 with the counter at 60 and a request of 2000 tokens. -/
theorem C11_clamp_idempotent_witness :
    clamp (clamp (⟨"gpt-4", 2000, 7 / 10, [], false⟩ : TestRequest Unit) ⟨60, fun _ => 0, 0⟩)
        ⟨60, fun _ => 0, 0⟩ =
      clamp (⟨"gpt-4", 2000, 7 / 10, [], false⟩ : TestRequest Unit) ⟨60, fun _ => 0, 0⟩ :=
  (C11_clamp_idempotent (⟨"gpt-4", 2000, 7 / 10, [], false⟩ : TestRequest Unit)
    ⟨60, fun _ => 0, 0⟩ (by decide)).1

/-- Claim C12: when the gauge is not overloaded (counter at most 50) the
clamp returns the request unchanged, so `max_tokens`, `temperature` and
`model` keep their values. -/
theorem C12_clamp_noop_when_not_overloaded {Msg : Type} (req : TestRequest Msg) (w : World)
    (hw : w.activeRequests ≤ 50) :
    clamp req w = req ∧
    (clamp req w).MaxTokens = req.MaxTokens ∧
    (clamp req w).Temperature = req.Temperature ∧
    (clamp req w).Model = req.Model := by
  have hs : ShouldActivateGrayLogic w = false := by
    simp only [ShouldActivateGrayLogic, GetActiveRequests, grayLogicConcurrencyThreshold,
      gt_iff_lt, decide_eq_false_iff_not, not_lt]
    exact hw
  have hc : clamp req w = req := by
    simp only [clamp, hs, Bool.false_eq_true, if_false]
  rw [hc]
  exact ⟨rfl, rfl, rfl, rfl⟩

/-- Witness of C12 with the counter at exactly 50 and a request of 2000
tokens. -/
theorem C12_clamp_noop_when_not_overloaded_witness :
    clamp (⟨"gpt-4", 2000, 7 / 10, [], false⟩ : TestRequest Unit) ⟨50, fun _ => 0, 0⟩ =
      ⟨"gpt-4", 2000, 7 / 10, [], false⟩ :=
  (C12_clamp_noop_when_not_overloaded (⟨"gpt-4", 2000, 7 / 10, [], false⟩ : TestRequest Unit)
    ⟨50, fun _ => 0, 0⟩ (by decide)).1

/-! ## The counter under sequences of calls -/

theorem wrapInt64_of_range (x : ℤ) (h1 : -2 ^ 63 ≤ x) (h2 : x < 2 ^ 63) :
    wrapInt64 x = x := by
  unfold wrapInt64
  omega

theorem wrapInt64_range (x : ℤ) : -2 ^ 63 ≤ wrapInt64 x ∧ wrapInt64 x < 2 ^ 63 := by
  unfold wrapInt64
  omega

theorem wrapInt64_le (x : ℤ) (h : -2 ^ 63 ≤ x) : wrapInt64 x ≤ x := by
  unfold wrapInt64
  omega

theorem wrapInt64_add (x y : ℤ) : wrapInt64 (wrapInt64 x + y) = wrapInt64 (x + y) := by
  unfold wrapInt64
  omega

theorem increment_eq (w : World) :
    IncrementActiveRequests w =
      (wrapInt64 (w.activeRequests + 1),
        { w with activeRequests := wrapInt64 (w.activeRequests + 1) }) := rfl

theorem decrement_eq (w : World) :
    DecrementActiveRequests w =
      (wrapInt64 (w.activeRequests - 1),
        { w with activeRequests := wrapInt64 (w.activeRequests - 1) }) := rfl

theorem resolve_counter (id : String) (w : World) :
    (ResolveVirtualPolicyModel id w).2.activeRequests = w.activeRequests := by
  unfold ResolveVirtualPolicyModel
  by_cases h1 : id = PolicyModelHA
  · simp only [if_pos h1, resolvePolicyHA, randFloat32]
    split <;> rfl
  by_cases h2 : id = PolicyModelCost
  · simp only [if_neg h1, if_pos h2, resolvePolicyCost, randFloat32]
    split <;> rfl
  by_cases h3 : id = PolicyModelQuality
  · simp only [if_neg h1, if_neg h2, if_pos h3, resolvePolicyQuality]
  by_cases h4 : id = PolicyModelDegrade
  · simp only [if_neg h1, if_neg h2, if_neg h3, if_pos h4, resolvePolicyDegrade]
    split <;> rfl
  · simp only [if_neg h1, if_neg h2, if_neg h3, if_neg h4]

/-- The counter after a call, in terms of the counter before it. -/
theorem perform_counter (c : Call) (w : World) :
    (perform c w).2.activeRequests =
      if c = Call.increment then wrapInt64 (w.activeRequests + 1)
      else if c = Call.decrement then wrapInt64 (w.activeRequests - 1)
      else w.activeRequests := by
  cases c with
  | increment => rfl
  | decrement => rfl
  | getActive => rfl
  | shouldActivate => rfl
  | resolve id =>
    simp only [perform, reduceCtorEq, if_false]
    exact resolve_counter id w

/-- The integer a call returns, when it returns one, is the counter it
leaves. -/
theorem perform_int (c : Call) (w : World) (v : ℤ)
    (h : (perform c w).1 = CallResult.int v) : v = (perform c w).2.activeRequests := by
  cases c with
  | increment =>
    simp only [perform, CallResult.int.injEq] at h
    rw [← h]; rfl
  | decrement =>
    simp only [perform, CallResult.int.injEq] at h
    rw [← h]; rfl
  | getActive =>
    simp only [perform, CallResult.int.injEq] at h
    rw [← h]; rfl
  | shouldActivate => simp [perform] at h
  | resolve id => simp [perform] at h

/-- The counter after a sequence of calls: the wrapped sum of the counter
before, plus the increments, minus the decrements. -/
theorem runCalls_counter (calls : List Call) :
    ∀ (w : World) (t : ℤ), w.activeRequests = wrapInt64 t →
      (runCalls calls w).2.activeRequests =
        wrapInt64 (t + calls.count Call.increment - calls.count Call.decrement) := by
  induction calls with
  | nil =>
    intro w t ht
    simp only [runCalls, List.count_nil, Nat.cast_zero, add_zero, sub_zero]
    exact ht
  | cons c cs ih =>
    intro w t ht
    simp only [runCalls]
    have hp := perform_counter c w
    by_cases h1 : c = Call.increment
    · rw [if_pos h1, ht, wrapInt64_add] at hp
      rw [ih _ (t + 1) hp, h1]
      simp only [List.count_cons_self, Nat.cast_add, Nat.cast_one]
      rw [List.count_cons_of_ne (by decide)]
      congr 1; ring
    by_cases h2 : c = Call.decrement
    · rw [if_neg h1, if_pos h2, ht, sub_eq_add_neg, wrapInt64_add] at hp
      rw [ih _ (t + -1) hp, h2]
      simp only [List.count_cons_self, Nat.cast_add, Nat.cast_one]
      rw [List.count_cons_of_ne (by decide)]
      congr 1; ring
    · rw [if_neg h1, if_neg h2, ht] at hp
      rw [ih _ t hp]
      rw [List.count_cons_of_ne (Ne.symm h1), List.count_cons_of_ne (Ne.symm h2)]

/-- No value returned in a sequence of calls exceeds the unwrapped counter
plus the number of increments, as long as the decrements cannot take the
unwrapped counter below the least `int64`. -/
theorem runCalls_le (calls : List Call) :
    ∀ (w : World) (t : ℤ), w.activeRequests = wrapInt64 t →
      -2 ^ 63 ≤ t - calls.count Call.decrement →
      ∀ (c : Call) (v : ℤ), (c, CallResult.int v) ∈ (runCalls calls w).1 →
        v ≤ t + calls.count Call.increment := by
  induction calls with
  | nil =>
    intro w t _ _ c v hmem
    simp [runCalls] at hmem
  | cons c cs ih =>
    intro w t ht hlo c' v hmem
    simp only [runCalls, List.mem_cons, Prod.mk.injEq] at hmem
    have hp := perform_counter c w
    by_cases h1 : c = Call.increment
    · subst h1
      rw [if_pos rfl, ht, wrapInt64_add] at hp
      rw [List.count_cons_of_ne (by decide)] at hlo
      rw [List.count_cons_self]
      push_cast
      rcases hmem with ⟨_, hv⟩ | hmem
      · have hv2 := perform_int _ w v hv.symm
        have hle := wrapInt64_le (t + 1) (by omega)
        omega
      · have := ih _ (t + 1) hp (by omega) c' v hmem
        omega
    by_cases h2 : c = Call.decrement
    · subst h2
      rw [if_neg (by decide), if_pos rfl, ht, sub_eq_add_neg, wrapInt64_add] at hp
      rw [List.count_cons_self] at hlo
      push_cast at hlo
      rw [List.count_cons_of_ne (by decide)]
      rcases hmem with ⟨_, hv⟩ | hmem
      · have hv2 := perform_int _ w v hv.symm
        have hle := wrapInt64_le (t + -1) (by omega)
        omega
      · have := ih _ (t + -1) hp (by omega) c' v hmem
        omega
    · rw [if_neg h1, if_neg h2, ht] at hp
      rw [List.count_cons_of_ne (Ne.symm h2)] at hlo
      rw [List.count_cons_of_ne (Ne.symm h1)]
      rcases hmem with ⟨_, hv⟩ | hmem
      · have hv2 := perform_int _ w v hv.symm
        have hle := wrapInt64_le t (by omega)
        omega
      · exact ih _ t hp hlo c' v hmem

/-- Every value returned in a sequence of calls from an `int64` counter is an
`int64`. -/
theorem runCalls_int64 (calls : List Call) :
    ∀ w : World, -2 ^ 63 ≤ w.activeRequests → w.activeRequests < 2 ^ 63 →
      ∀ (c : Call) (v : ℤ), (c, CallResult.int v) ∈ (runCalls calls w).1 →
        -2 ^ 63 ≤ v ∧ v < 2 ^ 63 := by
  induction calls with
  | nil =>
    intro w _ _ c v hmem
    simp [runCalls] at hmem
  | cons c cs ih =>
    intro w hlo hhi c' v hmem
    simp only [runCalls, List.mem_cons, Prod.mk.injEq] at hmem
    have hp := perform_counter c w
    have hr : -2 ^ 63 ≤ (perform c w).2.activeRequests ∧
        (perform c w).2.activeRequests < 2 ^ 63 := by
      rw [hp]
      split
      · exact wrapInt64_range _
      · split
        · exact wrapInt64_range _
        · exact ⟨hlo, hhi⟩
    rcases hmem with ⟨_, hv⟩ | hmem
    · rw [perform_int c w v hv.symm]
      exact hr
    · exact ih _ hr.1 hr.2 c' v hmem

/-- After `j + 1` of `n` leading decrements the value returned is the wrapped
counter less `j + 1`. -/
theorem runCalls_decrements_mem (n : ℕ) (rest : List Call) :
    ∀ (w : World) (t : ℤ) (j : ℕ), w.activeRequests = wrapInt64 t → j < n →
      (Call.decrement, CallResult.int (wrapInt64 (t - (j + 1)))) ∈
        (runCalls (List.replicate n Call.decrement ++ rest) w).1 := by
  induction n with
  | zero =>
    intro w t j _ hj
    exact absurd hj (Nat.not_lt_zero j)
  | succ n ih =>
    intro w t j ht hj
    have hp := perform_counter Call.decrement w
    rw [if_neg (by decide), if_pos rfl, ht, sub_eq_add_neg, wrapInt64_add] at hp
    rw [List.replicate_succ, List.cons_append]
    simp only [runCalls, List.mem_cons, Prod.mk.injEq]
    cases j with
    | zero =>
      left
      refine ⟨trivial, ?_⟩
      have h1 : (perform Call.decrement w).1 =
          CallResult.int (perform Call.decrement w).2.activeRequests := rfl
      rw [h1, hp]
      simp only [Nat.cast_zero, zero_add, sub_eq_add_neg]
    | succ j =>
      right
      have h := ih (perform Call.decrement w).2 (t + -1) j hp (Nat.lt_of_succ_lt_succ hj)
      have e : t + -1 - ((j : ℤ) + 1) = t - (((j + 1 : ℕ) : ℤ) + 1) := by
        push_cast
        ring
      rw [e] at h
      exact h

/-- Outside the condition of C13 (amended) the bound fails: when the `K`
decrements can take the counter below the least `int64` and `s + K` stays
below the greatest, the ordering that starts with the decrements returns the
greatest `int64`. -/
theorem balanced_bound_fails (s : ℤ) (K : ℕ) (draws : ℕ → ℚ) (pos : ℕ)
    (hs : -2 ^ 63 ≤ s ∧ s < 2 ^ 63) (h1 : s - K < -2 ^ 63) (h2 : s + K < 2 ^ 63 - 1) :
    (List.replicate K Call.decrement ++ List.replicate K Call.increment).count
        Call.increment = K ∧
    (List.replicate K Call.decrement ++ List.replicate K Call.increment).count
        Call.decrement = K ∧
    (Call.decrement, CallResult.int (2 ^ 63 - 1)) ∈
      (runCalls (List.replicate K Call.decrement ++ List.replicate K Call.increment)
        ⟨s, draws, pos⟩).1 ∧
    s + K < 2 ^ 63 - 1 := by
  have hdi : (List.replicate K Call.decrement).count Call.increment = 0 := by
    rw [List.count_replicate]
    rfl
  have hid : (List.replicate K Call.increment).count Call.decrement = 0 := by
    rw [List.count_replicate]
    rfl
  refine ⟨?_, ?_, ?_, h2⟩
  · rw [List.count_append, hdi, List.count_replicate_self, Nat.zero_add]
  · rw [List.count_append, hid, List.count_replicate_self, Nat.add_zero]
  · have hw : (⟨s, draws, pos⟩ : World).activeRequests = wrapInt64 s :=
      (wrapInt64_of_range s hs.1 hs.2).symm
    have hj : (s + 2 ^ 63).toNat < K := by omega
    have h := runCalls_decrements_mem K (List.replicate K Call.increment) _ s
      (s + 2 ^ 63).toNat hw hj
    have e : wrapInt64 (s - (((s + 2 ^ 63).toNat : ℤ) + 1)) = 2 ^ 63 - 1 := by
      have : (((s + 2 ^ 63).toNat : ℤ)) = s + 2 ^ 63 := Int.toNat_of_nonneg (by omega)
      rw [this]
      unfold wrapInt64
      omega
    rw [e] at h
    exact h

/-- Claim C13 (amended): for every `int64` starting value `s`, every `K` and
every ordering of `K` increments and `K` decrements (whatever reads are issued
among them), the final counter is `s`; and no call returns more than `s + K`
whenever `s ≥ -1`, and more generally whenever `s - K` is not below the least
`int64` or `s + K` is not below the greatest. -/
theorem C13_balanced_interleaving (s : ℤ) (K : ℕ) (calls : List Call)
    (draws : ℕ → ℚ) (pos : ℕ)
    (hs : -2 ^ 63 ≤ s ∧ s < 2 ^ 63)
    (hinc : calls.count Call.increment = K) (hdec : calls.count Call.decrement = K) :
    (runCalls calls ⟨s, draws, pos⟩).2.activeRequests = s ∧
    ((-1 ≤ s ∨ -2 ^ 63 ≤ s - K ∨ 2 ^ 63 - 1 ≤ s + K) →
      ∀ (c : Call) (v : ℤ), (c, CallResult.int v) ∈ (runCalls calls ⟨s, draws, pos⟩).1 →
        v ≤ s + K) := by
  have hw : (⟨s, draws, pos⟩ : World).activeRequests = wrapInt64 s :=
    (wrapInt64_of_range s hs.1 hs.2).symm
  constructor
  · rw [runCalls_counter calls _ s hw, hinc, hdec]
    rw [show s + (K : ℤ) - (K : ℤ) = s by ring]
    exact wrapInt64_of_range s hs.1 hs.2
  · intro hcond c v hmem
    by_cases hlow : -2 ^ 63 ≤ s - K
    · have h := runCalls_le calls _ s hw (by rw [hdec]; exact hlow) c v hmem
      rw [hinc] at h
      exact h
    · have hv := runCalls_int64 calls ⟨s, draws, pos⟩ hs.1 hs.2 c v hmem
      have hhigh : 2 ^ 63 - 1 ≤ s + K := by
        rcases hcond with h | h | h
        · omega
        · exact absurd h hlow
        · exact h
      omega

/-- Witness of C13 (amended) at `s = 0`, `K = 2`, with the two decrements
between the two increments. -/
theorem C13_balanced_interleaving_witness :
    (runCalls [Call.increment, Call.decrement, Call.decrement, Call.increment]
        ⟨0, fun _ => 0, 0⟩).2.activeRequests = 0 ∧
    ∀ (c : Call) (v : ℤ),
      (c, CallResult.int v) ∈
          (runCalls [Call.increment, Call.decrement, Call.decrement, Call.increment]
            ⟨0, fun _ => 0, 0⟩).1 →
        v ≤ 0 + (2 : ℕ) :=
  ⟨(C13_balanced_interleaving 0 2
      [Call.increment, Call.decrement, Call.decrement, Call.increment] (fun _ => 0) 0
      (by decide) (by decide) (by decide)).1,
   (C13_balanced_interleaving 0 2
      [Call.increment, Call.decrement, Call.decrement, Call.increment] (fun _ => 0) 0
      (by decide) (by decide) (by decide)).2 (Or.inl (by decide))⟩

/-- Counterexample to C13 as stated: from the least `int64` (the value the
gauge created at 0 holds after `2 ^ 63` unmatched decrements, which it does not
refuse), with `K = 1`, the ordering decrement then increment makes the
decrement return the greatest `int64`, which exceeds `s + K`. -/
theorem C13_counterexample :
    (runCalls (List.replicate (2 ^ 63) Call.decrement) ⟨0, fun _ => 0, 0⟩).2.activeRequests =
      -2 ^ 63 ∧
    [Call.decrement, Call.increment].count Call.increment = 1 ∧
    [Call.decrement, Call.increment].count Call.decrement = 1 ∧
    (Call.decrement, CallResult.int (2 ^ 63 - 1)) ∈
      (runCalls [Call.decrement, Call.increment] ⟨-2 ^ 63, fun _ => 0, 0⟩).1 ∧
    ¬ ((2 ^ 63 - 1 : ℤ) ≤ -2 ^ 63 + (1 : ℕ)) := by
  refine ⟨?_, by decide, by decide, ?_, by decide⟩
  · have hw : (⟨0, fun _ => 0, 0⟩ : World).activeRequests = wrapInt64 0 := by
      simp [wrapInt64]
    have hi : (List.replicate (2 ^ 63) Call.decrement).count Call.increment = 0 := by
      rw [List.count_replicate]
      rfl
    rw [runCalls_counter _ _ 0 hw, List.count_replicate_self, hi]
    simp only [wrapInt64]
    norm_num
  · simp only [runCalls, perform, decrement_eq, List.mem_cons]
    left
    simp only [wrapInt64]
    norm_num

/-- While the unwrapped counter stays in `[0, 2 ^ 63)` after every prefix of
the calls, no call returns a negative value. -/
theorem runCalls_nonneg (calls : List Call) :
    ∀ w : World,
      (∀ n : ℕ,
        0 ≤ w.activeRequests + (calls.take n).count Call.increment -
            (calls.take n).count Call.decrement ∧
        w.activeRequests + (calls.take n).count Call.increment -
            (calls.take n).count Call.decrement < 2 ^ 63) →
      ∀ (c : Call) (v : ℤ), (c, CallResult.int v) ∈ (runCalls calls w).1 → 0 ≤ v := by
  induction calls with
  | nil =>
    intro w _ c v hmem
    simp [runCalls] at hmem
  | cons c cs ih =>
    intro w hpre c' v hmem
    simp only [runCalls, List.mem_cons, Prod.mk.injEq] at hmem
    have hp := perform_counter c w
    have h0 := hpre 0
    have h1 := hpre 1
    simp only [List.take_zero, List.count_nil, Nat.cast_zero, add_zero, sub_zero] at h0
    simp only [List.take_succ_cons, List.take_zero] at h1
    have hstep : 0 ≤ (perform c w).2.activeRequests ∧
        ∀ n : ℕ,
          (perform c w).2.activeRequests + (cs.take n).count Call.increment -
              (cs.take n).count Call.decrement =
            w.activeRequests + ((c :: cs).take (n + 1)).count Call.increment -
              ((c :: cs).take (n + 1)).count Call.decrement := by
      by_cases hi : c = Call.increment
      · subst hi
        rw [List.count_cons_self, List.count_cons_of_ne (by decide)] at h1
        simp only [List.count_nil, Nat.cast_zero, zero_add, Nat.cast_one, sub_zero] at h1
        rw [if_pos rfl, wrapInt64_of_range _ (by omega) (by omega)] at hp
        refine ⟨by omega, fun n => ?_⟩
        rw [List.take_succ_cons, List.count_cons_self, List.count_cons_of_ne (by decide), hp]
        push_cast
        ring
      by_cases hd : c = Call.decrement
      · subst hd
        rw [List.count_cons_self, List.count_cons_of_ne (by decide)] at h1
        simp only [List.count_nil, Nat.cast_zero, zero_add, Nat.cast_one, add_zero] at h1
        rw [if_neg (by decide), if_pos rfl, wrapInt64_of_range _ (by omega) (by omega)] at hp
        refine ⟨by omega, fun n => ?_⟩
        rw [List.take_succ_cons, List.count_cons_self, List.count_cons_of_ne (by decide), hp]
        push_cast
        ring
      · rw [if_neg hi, if_neg hd] at hp
        refine ⟨by omega, fun n => ?_⟩
        rw [List.take_succ_cons, List.count_cons_of_ne (Ne.symm hi),
          List.count_cons_of_ne (Ne.symm hd), hp]
    rcases hmem with ⟨_, hv⟩ | hmem
    · rw [perform_int c w v hv.symm]
      exact hstep.1
    · refine ih _ (fun n => ?_) c' v hmem
      rw [hstep.2 n]
      exact hpre (n + 1)

/-- Claim C14 (amended): starting from counter 0, for every sequence of calls
in which every decrement is preceded by a not-yet-matched increment and fewer
than `2 ^ 63` increments are ever outstanding, after each step the counter is
the number of increments minus the number of decrements issued so far, and
every value returned or read is at least 0. -/
theorem C14_outstanding_invariant (calls : List Call) (draws : ℕ → ℚ) (pos : ℕ)
    (hdisc : ∀ n : ℕ,
      (calls.take n).count Call.decrement ≤ (calls.take n).count Call.increment)
    (hbound : ∀ n : ℕ,
      ((calls.take n).count Call.increment : ℤ) - (calls.take n).count Call.decrement
        < 2 ^ 63) :
    (∀ n : ℕ,
      (runCalls (calls.take n) ⟨0, draws, pos⟩).2.activeRequests =
        ((calls.take n).count Call.increment : ℤ) - (calls.take n).count Call.decrement) ∧
    (∀ (c : Call) (v : ℤ),
      (c, CallResult.int v) ∈ (runCalls calls ⟨0, draws, pos⟩).1 → 0 ≤ v) := by
  have hw : (⟨0, draws, pos⟩ : World).activeRequests = wrapInt64 0 := by
    simp [wrapInt64]
  constructor
  · intro n
    rw [runCalls_counter (calls.take n) _ 0 hw, zero_add]
    have h1 := hdisc n
    have h2 := hbound n
    exact wrapInt64_of_range _ (by omega) h2
  · refine runCalls_nonneg calls _ (fun n => ?_)
    have h1 := hdisc n
    have h2 := hbound n
    simp only [zero_add]
    omega

/-- Witness of C14 (amended) on a run of two requests, the second entering
before the first leaves, with reads and overload queries in between. -/
theorem C14_outstanding_invariant_witness :
    (runCalls [Call.increment, Call.getActive, Call.increment, Call.shouldActivate,
        Call.decrement, Call.decrement, Call.getActive] ⟨0, fun _ => 0, 0⟩).1 =
      [(Call.increment, CallResult.int 1), (Call.getActive, CallResult.int 1),
        (Call.increment, CallResult.int 2), (Call.shouldActivate, CallResult.bool false),
        (Call.decrement, CallResult.int 1), (Call.decrement, CallResult.int 0),
        (Call.getActive, CallResult.int 0)] ∧
    ∀ (c : Call) (v : ℤ),
      (c, CallResult.int v) ∈
          (runCalls [Call.increment, Call.getActive, Call.increment, Call.shouldActivate,
            Call.decrement, Call.decrement, Call.getActive] ⟨0, fun _ => 0, 0⟩).1 →
        0 ≤ v :=
  ⟨by decide,
   (C14_outstanding_invariant
      [Call.increment, Call.getActive, Call.increment, Call.shouldActivate,
        Call.decrement, Call.decrement, Call.getActive] (fun _ => 0) 0
      (fun n => by
        rcases n with _ | _ | _ | _ | _ | _ | _ | n <;> simp [List.take])
      (fun n => by
        rcases n with _ | _ | _ | _ | _ | _ | _ | n <;> simp [List.take])).2⟩

/-- Counterexample to C14 as stated: `2 ^ 63` increments from 0, with no
decrement at all, leave the counter different from the number of increments
(it has wrapped to the least `int64`). -/
theorem C14_counterexample :
    (∀ n : ℕ,
      ((List.replicate (2 ^ 63) Call.increment).take n).count Call.decrement ≤
        ((List.replicate (2 ^ 63) Call.increment).take n).count Call.increment) ∧
    (runCalls (List.replicate (2 ^ 63) Call.increment) ⟨0, fun _ => 0, 0⟩).2.activeRequests =
      -2 ^ 63 ∧
    (-2 ^ 63 : ℤ) ≠
      ((List.replicate (2 ^ 63) Call.increment).count Call.increment : ℤ) -
        (List.replicate (2 ^ 63) Call.increment).count Call.decrement := by
  have hd : ∀ k : ℕ, (List.replicate k Call.increment).count Call.decrement = 0 := by
    intro k
    rw [List.count_replicate]
    rfl
  refine ⟨fun n => ?_, ?_, ?_⟩
  · rw [List.take_replicate, hd]
    exact Nat.zero_le _
  · have hw : (⟨0, fun _ => 0, 0⟩ : World).activeRequests = wrapInt64 0 := by
      simp [wrapInt64]
    rw [runCalls_counter _ _ 0 hw, List.count_replicate_self, hd]
    simp only [wrapInt64]
    norm_num
  · rw [List.count_replicate_self, hd]
    norm_num

/-- Claim C15 (amended): for every `int64` counter value `c`,
`IncrementActiveRequests` returns `c + 1` when `c` is below the greatest
`int64` (there it wraps to the least) and `DecrementActiveRequests` returns
`c - 1` when `c` is above the least `int64` (there it wraps to the greatest);
in every case the value returned is the new counter, which
`GetActiveRequests` called right afterwards returns. -/
theorem C15_increment_decrement_results (w : World)
    (hlo : -2 ^ 63 ≤ w.activeRequests) (hhi : w.activeRequests < 2 ^ 63) :
    (w.activeRequests < 2 ^ 63 - 1 →
      (IncrementActiveRequests w).1 = w.activeRequests + 1) ∧
    (w.activeRequests = 2 ^ 63 - 1 → (IncrementActiveRequests w).1 = -2 ^ 63) ∧
    (-2 ^ 63 < w.activeRequests →
      (DecrementActiveRequests w).1 = w.activeRequests - 1) ∧
    (w.activeRequests = -2 ^ 63 → (DecrementActiveRequests w).1 = 2 ^ 63 - 1) ∧
    (IncrementActiveRequests w).2.activeRequests = (IncrementActiveRequests w).1 ∧
    GetActiveRequests (IncrementActiveRequests w).2 = (IncrementActiveRequests w).1 ∧
    (DecrementActiveRequests w).2.activeRequests = (DecrementActiveRequests w).1 ∧
    GetActiveRequests (DecrementActiveRequests w).2 = (DecrementActiveRequests w).1 := by
  refine ⟨fun h => ?_, fun h => ?_, fun h => ?_, fun h => ?_, rfl, rfl, rfl, rfl⟩
  · simp only [increment_eq]
    exact wrapInt64_of_range _ (by omega) (by omega)
  · simp only [increment_eq, h, wrapInt64]
    norm_num
  · simp only [decrement_eq]
    exact wrapInt64_of_range _ (by omega) (by omega)
  · simp only [decrement_eq, h, wrapInt64]
    norm_num

/-- Witness of C15 (amended) with the counter at 50. -/
theorem C15_increment_decrement_results_witness :
    (IncrementActiveRequests ⟨50, fun _ => 0, 0⟩).1 = 50 + 1 ∧
    (DecrementActiveRequests ⟨50, fun _ => 0, 0⟩).1 = 50 - 1 ∧
    GetActiveRequests (IncrementActiveRequests ⟨50, fun _ => 0, 0⟩).2 =
      (IncrementActiveRequests ⟨50, fun _ => 0, 0⟩).1 :=
  ⟨(C15_increment_decrement_results ⟨50, fun _ => 0, 0⟩ (by decide) (by decide)).1
      (by decide),
   (C15_increment_decrement_results ⟨50, fun _ => 0, 0⟩ (by decide) (by decide)).2.2.1
      (by decide),
   (C15_increment_decrement_results ⟨50, fun _ => 0, 0⟩ (by decide) (by decide)).2.2.2.2.2.1⟩

/-- Counterexample to C15 as stated: at the greatest `int64` the increment
does not return `c + 1`, and at the least `int64` the decrement does not
return `c - 1`. -/
theorem C15_counterexample :
    (IncrementActiveRequests ⟨2 ^ 63 - 1, fun _ => 0, 0⟩).1 ≠ (2 ^ 63 - 1) + 1 ∧
    (DecrementActiveRequests ⟨-2 ^ 63, fun _ => 0, 0⟩).1 ≠ -2 ^ 63 - 1 := by
  constructor
  · simp only [increment_eq, wrapInt64]
    norm_num
  · simp only [decrement_eq, wrapInt64]
    norm_num

/-- One call of a sequence during which the counter never wraps: the counter
moves by the call's own step, and the rest of the sequence does not wrap
either. -/
theorem inRange_step (c : Call) (cs : List Call) (w : World)
    (hpre : ∀ n : ℕ,
      -2 ^ 63 ≤ w.activeRequests + ((c :: cs).take n).count Call.increment -
          ((c :: cs).take n).count Call.decrement ∧
      w.activeRequests + ((c :: cs).take n).count Call.increment -
          ((c :: cs).take n).count Call.decrement < 2 ^ 63) :
    (perform c w).2.activeRequests =
        w.activeRequests + (if c = Call.increment then 1 else 0) -
          (if c = Call.decrement then 1 else 0) ∧
    ∀ n : ℕ,
      -2 ^ 63 ≤ (perform c w).2.activeRequests + (cs.take n).count Call.increment -
          (cs.take n).count Call.decrement ∧
      (perform c w).2.activeRequests + (cs.take n).count Call.increment -
          (cs.take n).count Call.decrement < 2 ^ 63 := by
  have hp := perform_counter c w
  have h1 := hpre 1
  simp only [List.take_succ_cons, List.take_zero] at h1
  have hstep : ∀ n : ℕ,
      (perform c w).2.activeRequests + (cs.take n).count Call.increment -
          (cs.take n).count Call.decrement =
        w.activeRequests + ((c :: cs).take (n + 1)).count Call.increment -
          ((c :: cs).take (n + 1)).count Call.decrement ∧
      (perform c w).2.activeRequests =
        w.activeRequests + (if c = Call.increment then 1 else 0) -
          (if c = Call.decrement then 1 else 0) := by
    intro n
    by_cases hi : c = Call.increment
    · subst hi
      rw [List.count_cons_self, List.count_cons_of_ne (by decide)] at h1
      simp only [List.count_nil, Nat.cast_zero, zero_add, Nat.cast_one, sub_zero] at h1
      rw [if_pos rfl, wrapInt64_of_range _ (by omega) (by omega)] at hp
      rw [List.take_succ_cons, List.count_cons_self, List.count_cons_of_ne (by decide), hp]
      simp only [if_true, if_neg (show Call.increment ≠ Call.decrement by decide)]
      push_cast
      constructor <;> ring
    by_cases hd : c = Call.decrement
    · subst hd
      rw [List.count_cons_self, List.count_cons_of_ne (by decide)] at h1
      simp only [List.count_nil, Nat.cast_zero, zero_add, Nat.cast_one, add_zero] at h1
      rw [if_neg (by decide), if_pos rfl, wrapInt64_of_range _ (by omega) (by omega)] at hp
      rw [List.take_succ_cons, List.count_cons_self, List.count_cons_of_ne (by decide), hp]
      simp only [if_true, if_neg (show Call.decrement ≠ Call.increment by decide)]
      push_cast
      constructor <;> ring
    · rw [if_neg hi, if_neg hd] at hp
      rw [List.take_succ_cons, List.count_cons_of_ne (Ne.symm hi),
        List.count_cons_of_ne (Ne.symm hd), hp]
      simp only [if_neg hi, if_neg hd, add_zero, sub_zero, and_self]
  refine ⟨(hstep 0).2, fun n => ?_⟩
  rw [(hstep n).1]
  exact hpre (n + 1)

/-- After an increment that returned `last`, with `d` decrements since, the
later increments return a chain of values starting at or above `last`. -/
theorem runCalls_increment_chain (calls : List Call) :
    ∀ (w : World) (d : ℕ) (last : ℤ),
      atMostOneDecrementBetween (some d) calls = true →
      (∀ n : ℕ,
        -2 ^ 63 ≤ w.activeRequests + (calls.take n).count Call.increment -
            (calls.take n).count Call.decrement ∧
        w.activeRequests + (calls.take n).count Call.increment -
            (calls.take n).count Call.decrement < 2 ^ 63) →
      w.activeRequests = last - d →
      List.Chain (fun a b => a ≤ b) last (incrementResults (runCalls calls w).1) := by
  induction calls with
  | nil =>
    intro w d last _ _ _
    exact List.Chain.nil
  | cons c cs ih =>
    intro w d last hgap hpre hw
    obtain ⟨hc, hrest⟩ := inRange_step c cs w hpre
    cases c with
    | increment =>
      simp only [atMostOneDecrementBetween, Bool.and_eq_true, decide_eq_true_eq] at hgap
      simp only [if_true, if_neg (show Call.increment ≠ Call.decrement by decide)] at hc
      have hres : incrementResults (runCalls (Call.increment :: cs) w).1 =
          (perform Call.increment w).2.activeRequests ::
            incrementResults (runCalls cs (perform Call.increment w).2).1 := rfl
      rw [hres]
      refine List.Chain.cons (by omega) ?_
      exact ih _ 0 _ hgap.2 hrest (by simp)
    | decrement =>
      simp only [atMostOneDecrementBetween] at hgap
      simp only [if_true, if_neg (show Call.decrement ≠ Call.increment by decide)] at hc
      have hres : incrementResults (runCalls (Call.decrement :: cs) w).1 =
          incrementResults (runCalls cs (perform Call.decrement w).2).1 := rfl
      rw [hres]
      exact ih _ (d + 1) last hgap hrest (by push_cast; omega)
    | getActive =>
      simp only [atMostOneDecrementBetween] at hgap
      exact ih _ d last hgap hrest hw
    | shouldActivate =>
      simp only [atMostOneDecrementBetween] at hgap
      exact ih _ d last hgap hrest hw
    | resolve id =>
      simp only [atMostOneDecrementBetween] at hgap
      simp only [reduceCtorEq, if_false, add_zero, sub_zero] at hc
      have hres : incrementResults (runCalls (Call.resolve id :: cs) w).1 =
          incrementResults (runCalls cs (perform (Call.resolve id) w).2).1 := rfl
      rw [hres]
      exact ih _ d last hgap hrest (by rw [hc]; exact hw)

/-- Claim C17 (amended): for a single caller issuing any sequence of calls in
which at most one `DecrementActiveRequests` stands between two successive
increments, and during which the counter does not wrap around, the values
returned by its successive increment calls are monotone. -/
theorem C17_increment_results_monotone (calls : List Call) :
    ∀ w : World,
      atMostOneDecrementBetween none calls = true →
      (∀ n : ℕ,
        -2 ^ 63 ≤ w.activeRequests + (calls.take n).count Call.increment -
            (calls.take n).count Call.decrement ∧
        w.activeRequests + (calls.take n).count Call.increment -
            (calls.take n).count Call.decrement < 2 ^ 63) →
      List.Chain' (fun a b => a ≤ b) (incrementResults (runCalls calls w).1) := by
  induction calls with
  | nil =>
    intro w _ _
    exact List.chain'_nil
  | cons c cs ih =>
    intro w hgap hpre
    obtain ⟨_, hrest⟩ := inRange_step c cs w hpre
    cases c with
    | increment =>
      simp only [atMostOneDecrementBetween] at hgap
      have hres : incrementResults (runCalls (Call.increment :: cs) w).1 =
          (perform Call.increment w).2.activeRequests ::
            incrementResults (runCalls cs (perform Call.increment w).2).1 := rfl
      rw [hres]
      exact runCalls_increment_chain cs _ 0 _ hgap hrest (by simp)
    | decrement =>
      simp only [atMostOneDecrementBetween] at hgap
      exact ih _ hgap hrest
    | getActive =>
      simp only [atMostOneDecrementBetween] at hgap
      exact ih _ hgap hrest
    | shouldActivate =>
      simp only [atMostOneDecrementBetween] at hgap
      exact ih _ hgap hrest
    | resolve id =>
      simp only [atMostOneDecrementBetween] at hgap
      exact ih _ hgap hrest

/-- Witness of C17 (amended): a caller that opens and closes three requests
one after the other sees its increments return 1, 1 and 1. -/
theorem C17_increment_results_monotone_witness :
    incrementResults
        (runCalls [Call.increment, Call.decrement, Call.increment, Call.getActive,
          Call.decrement, Call.increment] ⟨0, fun _ => 0, 0⟩).1 = [1, 1, 1] ∧
    List.Chain' (fun a b => a ≤ b)
      (incrementResults
        (runCalls [Call.increment, Call.decrement, Call.increment, Call.getActive,
          Call.decrement, Call.increment] ⟨0, fun _ => 0, 0⟩).1) :=
  ⟨by decide,
   C17_increment_results_monotone
      [Call.increment, Call.decrement, Call.increment, Call.getActive,
        Call.decrement, Call.increment]
      ⟨0, fun _ => 0, 0⟩ (by decide)
      (fun n => by
        rcases n with _ | _ | _ | _ | _ | _ | n <;> simp [List.take])⟩

/-- Counterexample to C17 as stated: a caller that opens two requests, closes
both and opens a third sees its increments return 1, 2 and then 1. -/
theorem C17_counterexample :
    incrementResults
        (runCalls [Call.increment, Call.increment, Call.decrement, Call.decrement,
          Call.increment] ⟨0, fun _ => 0, 0⟩).1 = [1, 2, 1] ∧
    ¬ List.Chain' (fun a b => a ≤ b)
      (incrementResults
        (runCalls [Call.increment, Call.increment, Call.decrement, Call.decrement,
          Call.increment] ⟨0, fun _ => 0, 0⟩).1) := by
  have e : incrementResults
      (runCalls [Call.increment, Call.increment, Call.decrement, Call.decrement,
        Call.increment] ⟨0, fun _ => 0, 0⟩).1 = [1, 2, 1] := by decide
  refine ⟨e, ?_⟩
  rw [e]
  intro h
  have h21 : (2 : ℤ) ≤ 1 := (List.chain'_cons.1 (List.chain'_cons.1 h).2).1
  omega

/-- With no decrement and no overflow, no call of a sequence returns less
than a value the counter had reached before it. -/
theorem runCalls_ge (calls : List Call) (n : ℤ) (hn : -2 ^ 63 ≤ n) :
    ∀ w : World, Call.decrement ∉ calls → n ≤ w.activeRequests →
      w.activeRequests + calls.count Call.increment < 2 ^ 63 →
      ∀ (c : Call) (v : ℤ), (c, CallResult.int v) ∈ (runCalls calls w).1 → n ≤ v := by
  induction calls with
  | nil =>
    intro w _ _ _ c v hmem
    simp [runCalls] at hmem
  | cons c cs ih =>
    intro w hno hle hhi c' v hmem
    simp only [runCalls, List.mem_cons, Prod.mk.injEq] at hmem
    have hno' : Call.decrement ∉ cs := fun h => hno (List.mem_cons_of_mem _ h)
    have hd : c ≠ Call.decrement := fun h => hno (h ▸ List.mem_cons_self _ _)
    have hp := perform_counter c w
    have hstep : n ≤ (perform c w).2.activeRequests ∧
        (perform c w).2.activeRequests + cs.count Call.increment < 2 ^ 63 := by
      by_cases hi : c = Call.increment
      · subst hi
        rw [List.count_cons_self] at hhi
        push_cast at hhi
        rw [if_pos rfl, wrapInt64_of_range _ (by omega) (by omega)] at hp
        omega
      · rw [List.count_cons_of_ne (Ne.symm hi)] at hhi
        rw [if_neg hi, if_neg hd] at hp
        omega
    rcases hmem with ⟨_, hv⟩ | hmem
    · rw [perform_int c w v hv.symm]
      exact hstep.1
    · exact ih _ hno' hstep.1 hstep.2 c' v hmem

/-- Claim C18 (amended): after an `IncrementActiveRequests` call returns `n`,
for every following sequence of calls that contains no
`DecrementActiveRequests` and does not take the counter past the greatest
`int64`, every `GetActiveRequests` returns a value of at least `n`. -/
theorem C18_reads_after_increment (w0 : World) (calls : List Call)
    (hno : Call.decrement ∉ calls)
    (hhi : (IncrementActiveRequests w0).1 + calls.count Call.increment < 2 ^ 63) :
    ∀ v : ℤ,
      (Call.getActive, CallResult.int v) ∈
          (runCalls calls (IncrementActiveRequests w0).2).1 →
        (IncrementActiveRequests w0).1 ≤ v := by
  intro v hmem
  have hn : -2 ^ 63 ≤ (IncrementActiveRequests w0).1 := by
    rw [increment_eq]
    exact (wrapInt64_range _).1
  exact runCalls_ge calls _ hn (IncrementActiveRequests w0).2 hno (le_refl _) hhi
    Call.getActive v hmem

/-- Witness of C18 (amended): after the increment from 50 returns 51, a read,
an overload query, a resolution, a further increment and a read. -/
theorem C18_reads_after_increment_witness :
    (IncrementActiveRequests ⟨50, fun _ => 0, 0⟩).1 = 51 ∧
    ∀ v : ℤ,
      (Call.getActive, CallResult.int v) ∈
          (runCalls [Call.getActive, Call.shouldActivate, Call.resolve "policy-d-degrade",
            Call.increment, Call.getActive] (IncrementActiveRequests ⟨50, fun _ => 0, 0⟩).2).1 →
        (IncrementActiveRequests ⟨50, fun _ => 0, 0⟩).1 ≤ v :=
  ⟨by decide,
   C18_reads_after_increment ⟨50, fun _ => 0, 0⟩
    [Call.getActive, Call.shouldActivate, Call.resolve "policy-d-degrade",
      Call.increment, Call.getActive] (by decide) (by decide)⟩

/-- Counterexample to C18 as stated: the increment from `2 ^ 63 - 2` returns
the greatest `int64`; one more increment and no decrement later, a read
returns the least `int64`. -/
theorem C18_counterexample :
    (IncrementActiveRequests ⟨2 ^ 63 - 2, fun _ => 0, 0⟩).1 = 2 ^ 63 - 1 ∧
    Call.decrement ∉ [Call.increment, Call.getActive] ∧
    (Call.getActive, CallResult.int (-2 ^ 63)) ∈
      (runCalls [Call.increment, Call.getActive]
        (IncrementActiveRequests ⟨2 ^ 63 - 2, fun _ => 0, 0⟩).2).1 ∧
    ¬ ((2 ^ 63 - 1 : ℤ) ≤ -2 ^ 63) := by
  refine ⟨?_, by decide, ?_, by decide⟩
  · simp only [increment_eq, wrapInt64]
    norm_num
  · simp only [runCalls, perform, increment_eq, GetActiveRequests, List.mem_cons]
    right
    left
    simp only [wrapInt64]
    norm_num

/-- Claim C19: `DecrementActiveRequests` checks nothing and returns on every
state; on a fresh gauge at 0 it returns -1 and leaves the counter at -1,
after which `GetActiveRequests` returns -1 and `ShouldActivateGrayLogic`
returns false. -/
theorem C19_unmatched_decrement :
    (∀ (draws : ℕ → ℚ) (pos : ℕ),
      DecrementActiveRequests ⟨0, draws, pos⟩ = (-1, ⟨-1, draws, pos⟩) ∧
      GetActiveRequests (DecrementActiveRequests ⟨0, draws, pos⟩).2 = -1 ∧
      ShouldActivateGrayLogic (DecrementActiveRequests ⟨0, draws, pos⟩).2 = false) ∧
    (∀ w : World, -2 ^ 63 < w.activeRequests → w.activeRequests < 2 ^ 63 →
      (DecrementActiveRequests w).1 = w.activeRequests - 1 ∧
      (DecrementActiveRequests w).2.activeRequests = w.activeRequests - 1) := by
  have h0 : wrapInt64 (0 - 1) = -1 := by
    simp only [wrapInt64]
    norm_num
  refine ⟨fun draws pos => ?_, fun w hlo hhi => ?_⟩
  · simp only [decrement_eq, h0, GetActiveRequests, ShouldActivateGrayLogic,
      grayLogicConcurrencyThreshold]
    exact ⟨trivial, trivial, by decide⟩
  · simp only [decrement_eq]
    have := wrapInt64_of_range (w.activeRequests - 1) (by omega) (by omega)
    exact ⟨this, this⟩

/-- Claim C20: for every identifier other than `policy-d-degrade` and every
state of the random source, the resolver returns the same pair at any two
counter values; for `policy-d-degrade` it does not. -/
theorem C20_only_degrade_reads_gauge (id : String) (c c' : ℤ) (draws : ℕ → ℚ) (pos : ℕ)
    (hid : id ≠ "policy-d-degrade") :
    (ResolveVirtualPolicyModel id ⟨c, draws, pos⟩).1 =
      (ResolveVirtualPolicyModel id ⟨c', draws, pos⟩).1 ∧
    (ResolveVirtualPolicyModel "policy-d-degrade" ⟨50, draws, pos⟩).1 ≠
      (ResolveVirtualPolicyModel "policy-d-degrade" ⟨51, draws, pos⟩).1 := by
  constructor
  · by_cases h1 : id = "policy-a-ha"
    · subst h1
      rw [resolve_ha, resolve_ha]
      rfl
    by_cases h2 : id = "policy-b-cost"
    · subst h2
      rw [resolve_cost, resolve_cost]
      rfl
    by_cases h3 : id = "policy-c-quality"
    · subst h3
      rw [resolve_quality, resolve_quality]
    · rw [resolve_other id _ ⟨h1, h2, h3, hid⟩, resolve_other id _ ⟨h1, h2, h3, hid⟩]
  · rw [resolve_degrade, resolve_degrade]
    have h50 : ¬ ((50 : ℤ) < 50) := by decide
    have h51 : (50 : ℤ) < 51 := by decide
    simp only [if_neg h50, if_pos h51]
    intro h
    exact absurd (congrArg Prod.fst h) (by decide)

/-- Witness of C20 at `policy-b-cost`, with the counter at 0 and at 60. -/
theorem C20_only_degrade_reads_gauge_witness :
    (ResolveVirtualPolicyModel "policy-b-cost" ⟨0, fun _ => 1 / 4, 0⟩).1 =
      (ResolveVirtualPolicyModel "policy-b-cost" ⟨60, fun _ => 1 / 4, 0⟩).1 :=
  (C20_only_degrade_reads_gauge "policy-b-cost" 0 60 (fun _ => 1 / 4) 0 (by decide)).1

/-! ## The gateway flow -/

theorem clamp_model {Msg : Type} (req : TestRequest Msg) (w : World) :
    (clamp req w).Model = req.Model := by
  unfold clamp
  split <;> rfl

theorem resolve_was_virtual (id : String) (w : World) :
    (ResolveVirtualPolicyModel id w).1.2 = IsVirtualPolicyModel id := by
  by_cases h1 : id = "policy-a-ha"
  · subst h1
    rw [resolve_ha]
    exact ((isVirtual_iff _).2 (Or.inl rfl)).symm
  by_cases h2 : id = "policy-b-cost"
  · subst h2
    rw [resolve_cost]
    exact ((isVirtual_iff _).2 (Or.inr (Or.inl rfl))).symm
  by_cases h3 : id = "policy-c-quality"
  · subst h3
    rw [resolve_quality]
    exact ((isVirtual_iff _).2 (Or.inr (Or.inr (Or.inl rfl)))).symm
  by_cases h4 : id = "policy-d-degrade"
  · subst h4
    rw [resolve_degrade]
    exact ((isVirtual_iff _).2 (Or.inr (Or.inr (Or.inr rfl)))).symm
  · rw [resolve_other id w ⟨h1, h2, h3, h4⟩]
    cases hv : IsVirtualPolicyModel id
    · rfl
    · rcases (isVirtual_iff id).1 hv with h | h | h | h
      · exact absurd h h1
      · exact absurd h h2
      · exact absurd h h3
      · exact absurd h h4

theorem resolve_fst_of_not_virtual (id : String) (w : World)
    (h : IsVirtualPolicyModel id = false) : (ResolveVirtualPolicyModel id w).1.1 = id := by
  have hn : ¬ (id = "policy-a-ha" ∨ id = "policy-b-cost" ∨ id = "policy-c-quality" ∨
      id = "policy-d-degrade") := by
    intro hor
    rw [(isVirtual_iff id).2 hor] at h
    exact Bool.noConfusion h
  rw [resolve_other id w
    ⟨fun e => hn (Or.inl e), fun e => hn (Or.inr (Or.inl e)),
      fun e => hn (Or.inr (Or.inr (Or.inl e))), fun e => hn (Or.inr (Or.inr (Or.inr e)))⟩]

/-- Claim C16 (amended): in the gateway flow, for every request, every state
of the random source, every counter value and every upstream answer, when the
requested model is a virtual tag the model the client observes on the unary
response and on each streaming chunk is that tag; when it is not, the request
is dispatched under its own name and the response is passed on as the
upstream sent it, so the client observes the requested name exactly when the
upstream answers under it.  The rewrite keeps the number of chunks, the
dispatch goes out under the resolved model, the middleware simulation of the
test script looks up the resolved model and shows the user the requested one,
and the unconditional spoofing step of the test scripts shows the requested
name whatever the upstream answers. -/
theorem C16_spoofing_round_trip {Msg : Type} (req : TestRequest Msg)
    (upstream : TestRequest Msg → UpstreamReply) (w : World) :
    (IsVirtualPolicyModel req.Model = true →
      (gatewayFlow req upstream w).1.2.unaryModel = req.Model ∧
      ∀ m ∈ (gatewayFlow req upstream w).1.2.chunkModels, m = req.Model) ∧
    (IsVirtualPolicyModel req.Model = false →
      (gatewayFlow req upstream w).1.1.Model = req.Model ∧
      (gatewayFlow req upstream w).1.2 = upstream (gatewayFlow req upstream w).1.1 ∧
      ((gatewayFlow req upstream w).1.2.unaryModel = req.Model ↔
        (upstream (gatewayFlow req upstream w).1.1).unaryModel =
          (gatewayFlow req upstream w).1.1.Model) ∧
      ((∀ m ∈ (gatewayFlow req upstream w).1.2.chunkModels, m = req.Model) ↔
        ∀ m ∈ (upstream (gatewayFlow req upstream w).1.1).chunkModels,
          m = (gatewayFlow req upstream w).1.1.Model)) ∧
    (gatewayFlow req upstream w).1.2.chunkModels.length =
      (upstream (gatewayFlow req upstream w).1.1).chunkModels.length ∧
    (gatewayFlow req upstream w).1.1.Model = (ResolveVirtualPolicyModel req.Model w).1.1 ∧
    simulateMiddlewareFlow req.Model w =
      (((ResolveVirtualPolicyModel req.Model w).1.1, req.Model),
        (ResolveVirtualPolicyModel req.Model w).2) ∧
    (∀ reply : UpstreamReply,
      (spoofResponse req.Model reply).unaryModel = req.Model ∧
      (∀ m ∈ (spoofResponse req.Model reply).chunkModels, m = req.Model) ∧
      (spoofResponse req.Model reply).chunkModels.length = reply.chunkModels.length) := by
  have hdispatch : (gatewayFlow req upstream w).1.1.Model =
      (ResolveVirtualPolicyModel req.Model w).1.1 := by
    simp only [gatewayFlow]
    rw [clamp_model]
  refine ⟨fun hv => ?_, fun hv => ?_, ?_, hdispatch, ?_, fun reply => ⟨rfl, ?_, ?_⟩⟩
  · have hr : (ResolveVirtualPolicyModel req.Model w).1.2 = true := by
      rw [resolve_was_virtual, hv]
    simp only [gatewayFlow, hr, if_true]
    refine ⟨trivial, fun m hm => ?_⟩
    simp only [List.mem_map] at hm
    obtain ⟨_, _, rfl⟩ := hm
    rfl
  · have hr : (ResolveVirtualPolicyModel req.Model w).1.2 = false := by
      rw [resolve_was_virtual, hv]
    have hm : (gatewayFlow req upstream w).1.1.Model = req.Model := by
      rw [hdispatch, resolve_fst_of_not_virtual _ _ hv]
    have hobs : (gatewayFlow req upstream w).1.2 =
        upstream (gatewayFlow req upstream w).1.1 := by
      simp only [gatewayFlow, hr, Bool.false_eq_true, if_false]
    refine ⟨hm, hobs, ?_, ?_⟩
    · rw [hobs, hm]
    · rw [hobs, hm]
  · cases hr : (ResolveVirtualPolicyModel req.Model w).1.2
    · simp only [gatewayFlow, hr, Bool.false_eq_true, if_false]
    · simp only [gatewayFlow, hr, if_true, List.length_map]
  · unfold simulateMiddlewareFlow
    cases hv : IsVirtualPolicyModel req.Model
    · have hn : ¬ (req.Model = "policy-a-ha" ∨ req.Model = "policy-b-cost" ∨
          req.Model = "policy-c-quality" ∨ req.Model = "policy-d-degrade") := by
        intro hor
        rw [(isVirtual_iff _).2 hor] at hv
        exact Bool.noConfusion hv
      rw [resolve_other req.Model w
        ⟨fun e => hn (Or.inl e), fun e => hn (Or.inr (Or.inl e)),
          fun e => hn (Or.inr (Or.inr (Or.inl e))), fun e => hn (Or.inr (Or.inr (Or.inr e)))⟩]
      simp only [Bool.false_eq_true, if_false]
    · have hr : (ResolveVirtualPolicyModel req.Model w).1.2 = true := by
        rw [resolve_was_virtual, hv]
      have hne : req.Model ≠ "" := by
        intro he
        rw [he] at hv
        exact absurd hv (by decide)
      simp only [if_true, hr, ne_eq, hne, not_false_eq_true]
  · intro m hm
    simp only [spoofResponse, List.mem_map] at hm
    obtain ⟨_, _, rfl⟩ := hm
    rfl
  · simp only [spoofResponse, List.length_map]

/-- Counterexample to C16 as stated: a request for `gpt-4`, which is not a
virtual tag, answered by the upstream under `gpt-3.5-turbo` (the response of
`testModelNameSpoofing` in scripts/test_gray_logic.go): nothing is rewritten
and the client observes `gpt-3.5-turbo` on the unary response and on the
chunk. -/
theorem C16_counterexample :
    IsVirtualPolicyModel "gpt-4" = false ∧
    (gatewayFlow (⟨"gpt-4", 2000, 7 / 10, [], false⟩ : TestRequest Unit)
        (fun _ => ⟨"gpt-3.5-turbo", ["gpt-3.5-turbo"]⟩) ⟨0, fun _ => 0, 0⟩).1.2 =
      ⟨"gpt-3.5-turbo", ["gpt-3.5-turbo"]⟩ ∧
    (gatewayFlow (⟨"gpt-4", 2000, 7 / 10, [], false⟩ : TestRequest Unit)
        (fun _ => ⟨"gpt-3.5-turbo", ["gpt-3.5-turbo"]⟩) ⟨0, fun _ => 0, 0⟩).1.2.unaryModel ≠
      "gpt-4" := by
  have hv : IsVirtualPolicyModel "gpt-4" = false := by decide
  have hr : (ResolveVirtualPolicyModel "gpt-4" ⟨0, fun _ => 0, 0⟩).1.2 = false := by
    rw [resolve_was_virtual, hv]
  have hobs : (gatewayFlow (⟨"gpt-4", 2000, 7 / 10, [], false⟩ : TestRequest Unit)
      (fun _ => ⟨"gpt-3.5-turbo", ["gpt-3.5-turbo"]⟩) ⟨0, fun _ => 0, 0⟩).1.2 =
      ⟨"gpt-3.5-turbo", ["gpt-3.5-turbo"]⟩ := by
    simp only [gatewayFlow, hr, Bool.false_eq_true, if_false]
  refine ⟨hv, hobs, ?_⟩
  rw [hobs]
  decide

/-! ## Proportions over a run of resolutions -/

theorem resolve_ha_world (w : World) :
    (ResolveVirtualPolicyModel "policy-a-ha" w).2 = { w with randPos := w.randPos + 1 } := by
  simp only [ResolveVirtualPolicyModel, PolicyModelHA, resolvePolicyHA, randFloat32, if_true]
  split <;> rfl

theorem resolve_cost_world (w : World) :
    (ResolveVirtualPolicyModel "policy-b-cost" w).2 = { w with randPos := w.randPos + 1 } := by
  have h : ("policy-b-cost" : String) ≠ "policy-a-ha" := by decide
  simp only [ResolveVirtualPolicyModel, PolicyModelHA, PolicyModelCost, resolvePolicyCost,
    randFloat32, if_true, if_neg h]
  split <;> rfl

theorem drawsBelow_succ (t : ℚ) (n : ℕ) (w : World) :
    drawsBelow t (n + 1) w =
      (if nextDraw w < t then 1 else 0) +
        drawsBelow t n { w with randPos := w.randPos + 1 } := by
  unfold drawsBelow nextDraw
  rw [List.range_succ_eq_map, List.countP_cons, List.countP_map, Nat.add_comm]
  congr 1
  · simp only [Nat.add_zero, decide_eq_true_eq]
  · apply congrArg (fun p => List.countP p (List.range n))
    funext i
    simp only [Function.comp, Nat.succ_eq_add_one]
    rw [show w.randPos + (i + 1) = w.randPos + 1 + i by omega]

/-- Over a run of resolutions of `policy-b-cost` on `float32` draws, the calls
that return `gemini-1.5-flash-latest` are those whose draw is below `4/5`. -/
theorem countResolved_cost (N : ℕ) :
    ∀ w : World, (∀ i : ℕ, i < N → isFloat32Unit (w.randStream (w.randPos + i)) = true) →
      (countResolved "policy-b-cost" "gemini-1.5-flash-latest" N w).1 =
        drawsBelow (4 / 5) N w := by
  have hne : ("claude-3-haiku-20240307" : String) ≠ "gemini-1.5-flash-latest" := by decide
  induction N with
  | zero =>
    intro w _
    rfl
  | succ N ih =>
    intro w hf
    have h0 : isFloat32Unit (nextDraw w) = true := hf 0 (Nat.succ_pos N)
    have hcut := float32_lt_four_fifths (nextDraw w) h0
    have hrest : ∀ i : ℕ, i < N →
        isFloat32Unit
          (({ w with randPos := w.randPos + 1 } : World).randStream
            (({ w with randPos := w.randPos + 1 } : World).randPos + i)) = true := by
      intro i hi
      have h := hf (i + 1) (Nat.succ_lt_succ hi)
      rw [show w.randPos + (i + 1) = w.randPos + 1 + i by omega] at h
      exact h
    rw [drawsBelow_succ]
    simp only [countResolved]
    rw [resolve_cost_world, ih _ hrest, resolve_cost]
    congr 1
    by_cases hd : nextDraw w < float32Const (4 / 5)
    · rw [if_pos hd, if_pos (hcut.1 hd), if_pos rfl]
    · have hd' : ¬ nextDraw w < 4 / 5 := fun h => hd (hcut.2 h)
      rw [if_neg hd, if_neg hd', if_neg hne]

/-- Over a run of resolutions of `policy-a-ha`, the calls that return `gpt-4o`
are those whose draw is below `1/2`. -/
theorem countResolved_ha (N : ℕ) :
    ∀ w : World,
      (countResolved "policy-a-ha" "gpt-4o" N w).1 = drawsBelow (1 / 2) N w := by
  have hne : ("claude-3-sonnet-20240229" : String) ≠ "gpt-4o" := by decide
  induction N with
  | zero =>
    intro w
    rfl
  | succ N ih =>
    intro w
    rw [drawsBelow_succ]
    simp only [countResolved]
    rw [resolve_ha_world, ih, resolve_ha]
    congr 1
    by_cases hd : nextDraw w < 1 / 2
    · rw [if_pos hd, if_pos hd, if_pos rfl]
    · rw [if_neg hd, if_neg hd, if_neg hne]

/-- Claim C21: over any run of `N` resolutions on `float32` draws of
`[0, 1)`, the calls for which `policy-b-cost` returns
`gemini-1.5-flash-latest` are exactly those whose draw lies in `[0, 0.8)`, and
the calls for which `policy-a-ha` returns `gpt-4o` are exactly those whose
draw lies in `[0, 0.5)`; so with a fair source, one that puts the proportion
`0.8` of its draws below `0.8` and the proportion `0.5` below `0.5`, the two
proportions are exactly `4/5` and `1/2`. -/
theorem C21_fair_source_proportions (N : ℕ) (w : World)
    (hfloat : ∀ i : ℕ, i < N → isFloat32Unit (w.randStream (w.randPos + i)) = true) :
    (countResolved "policy-b-cost" "gemini-1.5-flash-latest" N w).1 =
      drawsBelow (4 / 5) N w ∧
    (countResolved "policy-a-ha" "gpt-4o" N w).1 = drawsBelow (1 / 2) N w ∧
    ((drawsBelow (4 / 5) N w : ℚ) / N = 4 / 5 →
      ((countResolved "policy-b-cost" "gemini-1.5-flash-latest" N w).1 : ℚ) / N = 4 / 5) ∧
    ((drawsBelow (1 / 2) N w : ℚ) / N = 1 / 2 →
      ((countResolved "policy-a-ha" "gpt-4o" N w).1 : ℚ) / N = 1 / 2) := by
  have hc := countResolved_cost N w hfloat
  have hh := countResolved_ha N w
  refine ⟨hc, hh, fun hfair => ?_, fun hfair => ?_⟩
  · rw [hc]
    exact hfair
  · rw [hh]
    exact hfair

/-- Witness of C21 on ten resolutions over the sample source: eight return
`gemini-1.5-flash-latest` and five return `gpt-4o`. -/
theorem C21_fair_source_proportions_witness :
    ((countResolved "policy-b-cost" "gemini-1.5-flash-latest" 10 sampleSource).1 : ℚ) /
        (10 : ℕ) = 4 / 5 ∧
    ((countResolved "policy-a-ha" "gpt-4o" 10 sampleSource).1 : ℚ) / (10 : ℕ) = 1 / 2 := by
  have hf : ∀ i : ℕ, i < 10 →
      isFloat32Unit (sampleSource.randStream (sampleSource.randPos + i)) = true := by
    intro i hi
    interval_cases i <;> decide!
  have h8 : drawsBelow (4 / 5) 10 sampleSource = 8 := by decide!
  have h5 : drawsBelow (1 / 2) 10 sampleSource = 5 := by decide!
  have hfair8 : (drawsBelow (4 / 5) 10 sampleSource : ℚ) / (10 : ℕ) = 4 / 5 := by
    rw [h8]
    norm_num
  have hfair5 : (drawsBelow (1 / 2) 10 sampleSource : ℚ) / (10 : ℕ) = 1 / 2 := by
    rw [h5]
    norm_num
  exact ⟨(C21_fair_source_proportions 10 sampleSource hf).2.2.1 hfair8,
    (C21_fair_source_proportions 10 sampleSource hf).2.2.2 hfair5⟩

/-! ## What the resolver hands on, and what it leaves alone -/

/-- The name the resolver returns is never a virtual tag. -/
theorem resolve_fst_not_virtual (id : String) (w : World) :
    IsVirtualPolicyModel (ResolveVirtualPolicyModel id w).1.1 = false := by
  by_cases h1 : id = "policy-a-ha"
  · subst h1
    rw [resolve_ha]
    by_cases hd : nextDraw w < 1 / 2
    · simp only [if_pos hd]; decide
    · simp only [if_neg hd]; decide
  by_cases h2 : id = "policy-b-cost"
  · subst h2
    rw [resolve_cost]
    by_cases hd : nextDraw w < float32Const (4 / 5)
    · simp only [if_pos hd]; decide
    · simp only [if_neg hd]; decide
  by_cases h3 : id = "policy-c-quality"
  · subst h3
    rw [resolve_quality]
    show IsVirtualPolicyModel "gpt-4o" = false
    decide
  by_cases h4 : id = "policy-d-degrade"
  · subst h4
    rw [resolve_degrade]
    by_cases hd : 50 < w.activeRequests
    · simp only [if_pos hd]; decide
    · simp only [if_neg hd]; decide
  · rw [resolve_other id w ⟨h1, h2, h3, h4⟩]
    cases hv : IsVirtualPolicyModel id
    · rfl
    · rcases (isVirtual_iff id).1 hv with h | h | h | h
      · exact absurd h h1
      · exact absurd h h2
      · exact absurd h h3
      · exact absurd h h4

/-- Claim C22: for every identifier, every state of the random source and
every counter value, the name `ResolveVirtualPolicyModel` returns is not a
virtual tag (in particular when the identifier is one), so the name handed to
the channel lookup is not a virtual policy name, and resolving the returned
name again returns it unchanged with `was_virtual = false`. -/
theorem C22_resolved_name_is_concrete {Msg : Type} (id : String) (w w' : World) :
    IsVirtualPolicyModel (ResolveVirtualPolicyModel id w).1.1 = false ∧
    (ResolveVirtualPolicyModel (ResolveVirtualPolicyModel id w).1.1 w').1 =
      ((ResolveVirtualPolicyModel id w).1.1, false) ∧
    (ResolveVirtualPolicyModel (ResolveVirtualPolicyModel id w).1.1 w').2 = w' ∧
    IsVirtualPolicyModel (simulateMiddlewareFlow id w).1.1 = false ∧
    (∀ (req : TestRequest Msg) (upstream : TestRequest Msg → UpstreamReply),
      IsVirtualPolicyModel (gatewayFlow req upstream w).1.1.Model = false) := by
  have hnv := resolve_fst_not_virtual id w
  have hn : ¬ ((ResolveVirtualPolicyModel id w).1.1 = "policy-a-ha" ∨
      (ResolveVirtualPolicyModel id w).1.1 = "policy-b-cost" ∨
      (ResolveVirtualPolicyModel id w).1.1 = "policy-c-quality" ∨
      (ResolveVirtualPolicyModel id w).1.1 = "policy-d-degrade") := by
    intro hor
    rw [(isVirtual_iff _).2 hor] at hnv
    exact Bool.noConfusion hnv
  have hagain := resolve_other (ResolveVirtualPolicyModel id w).1.1 w'
    ⟨fun e => hn (Or.inl e), fun e => hn (Or.inr (Or.inl e)),
      fun e => hn (Or.inr (Or.inr (Or.inl e))), fun e => hn (Or.inr (Or.inr (Or.inr e)))⟩
  refine ⟨hnv, ?_, ?_, ?_, fun req upstream => ?_⟩
  · rw [hagain]
  · rw [hagain]
  · unfold simulateMiddlewareFlow
    cases hv : IsVirtualPolicyModel id
    · simp only [Bool.false_eq_true, if_false]
      exact hv
    · have hr : (ResolveVirtualPolicyModel id w).1.2 = true := by
        rw [resolve_was_virtual, hv]
      simp only [if_true, hr]
      exact hnv
  · have hm : (gatewayFlow req upstream w).1.1.Model =
        (ResolveVirtualPolicyModel req.Model w).1.1 := by
      simp only [gatewayFlow]
      rw [clamp_model]
    rw [hm]
    exact resolve_fst_not_virtual req.Model w

/-- Claim C23: `ResolveVirtualPolicyModel`, `GetActiveRequests` and
`ShouldActivateGrayLogic` leave the active-requests counter as it was, on
every input and at every counter value, and so does any sequence of such
calls; `IncrementActiveRequests` and `DecrementActiveRequests` always change
it.  (`IsVirtualPolicyModel` and `GetGrayLogicConstants` mention no package
variable, and are functions of their arguments alone.) -/
theorem C23_counter_frame :
    (∀ (id : String) (w : World),
      (ResolveVirtualPolicyModel id w).2.activeRequests = w.activeRequests) ∧
    (∀ (c : Call) (w : World), c ≠ Call.increment → c ≠ Call.decrement →
      (perform c w).2.activeRequests = w.activeRequests) ∧
    (∀ w : World, (perform Call.getActive w).2 = w ∧ (perform Call.shouldActivate w).2 = w) ∧
    (∀ (calls : List Call) (w : World),
      Call.increment ∉ calls → Call.decrement ∉ calls →
      (runCalls calls w).2.activeRequests = w.activeRequests) ∧
    (∀ (id : String) (w : World),
      GetActiveRequests (ResolveVirtualPolicyModel id w).2 = GetActiveRequests w ∧
      ShouldActivateGrayLogic (ResolveVirtualPolicyModel id w).2 =
        ShouldActivateGrayLogic w) ∧
    (∀ w : World,
      (IncrementActiveRequests w).2.activeRequests ≠ w.activeRequests ∧
      (DecrementActiveRequests w).2.activeRequests ≠ w.activeRequests) := by
  have hperform : ∀ (c : Call) (w : World), c ≠ Call.increment → c ≠ Call.decrement →
      (perform c w).2.activeRequests = w.activeRequests := by
    intro c w hi hd
    rw [perform_counter, if_neg hi, if_neg hd]
  refine ⟨resolve_counter, hperform, fun w => ⟨rfl, rfl⟩, ?_, fun id w => ?_, fun w => ?_⟩
  · intro calls
    induction calls with
    | nil =>
      intro w _ _
      rfl
    | cons c cs ih =>
      intro w hi hd
      have hci : c ≠ Call.increment := fun h => hi (h ▸ List.mem_cons_self _ _)
      have hcd : c ≠ Call.decrement := fun h => hd (h ▸ List.mem_cons_self _ _)
      simp only [runCalls]
      rw [ih _ (fun h => hi (List.mem_cons_of_mem _ h))
        (fun h => hd (List.mem_cons_of_mem _ h))]
      exact hperform c w hci hcd
  · simp only [GetActiveRequests, ShouldActivateGrayLogic, resolve_counter]
    exact ⟨trivial, trivial⟩
  · simp only [increment_eq, decrement_eq, wrapInt64]
    constructor <;> omega

end Common
